import Mathlib

/-!
A verification development for the Alonso language engine: a shallow
embedding of its lexer, Pratt parser and tree-walking evaluator, with
theorems checking the specification's claims against the embedded code.

Modelling conventions:
* Go `float64` numbers are modelled as exact rationals (`ℚ`); all claims
  under scrutiny only exercise arithmetic that is exact in both models.
  The four arithmetic operators are written as `Rat.divInt` of the
  cross-multiplied numerators and denominators (`ratAdd`, ...), which the
  kernel can reduce on concrete inputs; the lemmas `ratAdd_eq` ... prove
  them equal to the field operations of `ℚ`.
* Go source strings are modelled as `List Char`; the claims under
  scrutiny only involve ASCII source text, on which Go's byte indexing
  and the character indexing used here agree.
* Mutable `Environment` values linked by `outer` pointers are modelled as
  indices into a heap (`List Scope`); `NewEnclosedEnvironment` appends a
  scope, so an `outer` pointer always refers to an earlier heap index.
* Functions that can diverge take explicit fuel and return `none` when it
  runs out.  `none` is also used for the few spots where the Go code
  crashes (runtime panic, e.g. integer division by zero in `%`) or where
  the embedding cannot decide Go pointer identity (identity comparison
  of two arrays or two user functions, which no claim exercises).
-/

set_option maxRecDepth 10000

namespace Alonso

/-! ### Rational helpers (exact stand-ins for Go float64 values) -/

/-- Embed a natural number as a rational (Go `float64(n)`). -/
def natToRat (n : Nat) : ℚ :=
  ⟨Int.ofNat n, 1, Nat.one_ne_zero, Nat.coprime_one_right _⟩

/-- Embed an integer as a rational (Go widening an int64 back to float64). -/
def intToRat (n : Int) : ℚ :=
  ⟨n, 1, Nat.one_ne_zero, Nat.coprime_one_right _⟩

/-- Truncation toward zero: the exact model of Go's `int(x)` conversion on a
float64 value (Go truncates toward zero; the conversion is only defined for
values whose truncation fits in the target type, which covers every claim
under scrutiny). -/
def ratTrunc (q : ℚ) : Int :=
  q.num.tdiv (q.den : Int)

/-- Exact rational addition (Go `leftVal + rightVal`), written as a
normalized fraction so that it reduces on concrete inputs; `ratAdd_eq`
proves it equal to `ℚ` addition. -/
def ratAdd (a b : ℚ) : ℚ :=
  Rat.divInt (a.num * (b.den : Int) + b.num * (a.den : Int))
    ((a.den : Int) * (b.den : Int))

/-- Exact rational subtraction (Go `leftVal - rightVal`). -/
def ratSub (a b : ℚ) : ℚ :=
  Rat.divInt (a.num * (b.den : Int) - b.num * (a.den : Int))
    ((a.den : Int) * (b.den : Int))

/-- Exact rational multiplication (Go `leftVal * rightVal`). -/
def ratMul (a b : ℚ) : ℚ :=
  Rat.divInt (a.num * b.num) ((a.den : Int) * (b.den : Int))

/-- Exact rational division (Go `leftVal / rightVal`, guarded against a
zero divisor by the caller). -/
def ratDiv (a b : ℚ) : ℚ :=
  Rat.divInt (a.num * (b.den : Int)) ((a.den : Int) * b.num)

/-! ### Token model (from the lexer source: `TokenType`, `Token`) -/

inductive TokenType where
  | NUMBER | STRING | IDENTIFIER | BOOLEAN
  | GRID | PACE | CIRCUIT | ELSE_CIRCUIT | LOOP | WHILE_RACING
  | RETURN_PIT | BREAK_FLAG | CONTINUE_RACE
  | FORMATION | GARAGE
  | ASSIGN | PLUS | MINUS | MULTIPLY | DIVIDE | MODULO
  | EQUAL | NOT_EQUAL | LESS | LESS_EQUAL | GREATER | GREATER_EQUAL
  | AND | OR | NOT
  | SEMICOLON | COMMA | DOT
  | LPAREN | RPAREN | LBRACE | RBRACE | LBRACKET | RBRACKET
  | NEWLINE | EOF | ILLEGAL
deriving DecidableEq, BEq, Repr

structure Token where
  type : TokenType
  value : String
  line : Nat
  column : Nat
deriving DecidableEq, BEq, Repr

/-- `TokenType.String()` from the lexer source (used in parser messages). -/
def tokenTypeName : TokenType → String
  | .NUMBER => "NUMBER" | .STRING => "STRING" | .IDENTIFIER => "IDENTIFIER"
  | .BOOLEAN => "BOOLEAN"
  | .GRID => "GRID" | .PACE => "PACE" | .CIRCUIT => "CIRCUIT"
  | .ELSE_CIRCUIT => "ELSE_CIRCUIT" | .LOOP => "LOOP"
  | .WHILE_RACING => "WHILE_RACING" | .RETURN_PIT => "RETURN_PIT"
  | .BREAK_FLAG => "BREAK_FLAG" | .CONTINUE_RACE => "CONTINUE_RACE"
  | .FORMATION => "FORMATION" | .GARAGE => "GARAGE"
  | .ASSIGN => "ASSIGN" | .PLUS => "PLUS" | .MINUS => "MINUS"
  | .MULTIPLY => "MULTIPLY" | .DIVIDE => "DIVIDE" | .MODULO => "MODULO"
  | .EQUAL => "EQUAL" | .NOT_EQUAL => "NOT_EQUAL" | .LESS => "LESS"
  | .LESS_EQUAL => "LESS_EQUAL" | .GREATER => "GREATER"
  | .GREATER_EQUAL => "GREATER_EQUAL"
  | .AND => "AND" | .OR => "OR" | .NOT => "NOT"
  | .SEMICOLON => "SEMICOLON" | .COMMA => "COMMA" | .DOT => "DOT"
  | .LPAREN => "LPAREN" | .RPAREN => "RPAREN" | .LBRACE => "LBRACE"
  | .RBRACE => "RBRACE" | .LBRACKET => "LBRACKET" | .RBRACKET => "RBRACKET"
  | .NEWLINE => "NEWLINE" | .EOF => "EOF" | .ILLEGAL => "ILLEGAL"

/-! ### Lexer (from the lexer source: `Lexer`, `NextToken` and helpers) -/

structure Lexer where
  input : List Char
  position : Nat
  line : Nat
  column : Nat
deriving DecidableEq, Repr

def NewLexer (input : String) : Lexer :=
  { input := input.data, position := 0, line := 1, column := 1 }

/-- `l.advance()`: step one character, bumping the column. -/
def Lexer.advance (l : Lexer) : Lexer :=
  { l with position := l.position + 1, column := l.column + 1 }

/-- `l.peek()`: character after the current one, `0` byte at end of input. -/
def Lexer.peek (l : Lexer) : Char :=
  l.input.getD (l.position + 1) (Char.ofNat 0)

/-- One step bound for the scanning loops below. -/
def scanWhileAux : Nat → List Char → Nat → (Char → Bool) → Nat
  | 0, _, pos, _ => pos
  | fuel+1, input, pos, p =>
    match input[pos]? with
    | some c => if p c then scanWhileAux fuel input (pos+1) p else pos
    | none => pos

/-- Final position of a `for l.position < len && pred { l.advance() }` loop. -/
def scanWhile (input : List Char) (pos : Nat) (p : Char → Bool) : Nat :=
  scanWhileAux (input.length - pos) input pos p

/-- `l.skipWhitespace()`: consume spaces, tabs and carriage returns. -/
def skipWhitespace (l : Lexer) : Lexer :=
  let endPos := scanWhile l.input l.position
    (fun c => c == ' ' || c == '\t' || c == '\r')
  { l with position := endPos, column := l.column + (endPos - l.position) }

/-- `l.skipComment()`: consume through end of line (not the newline). -/
def skipComment (l : Lexer) : Lexer :=
  let endPos := scanWhile l.input l.position (fun c => !(c == '\n'))
  { l with position := endPos, column := l.column + (endPos - l.position) }

/-- `l.readString()`: a `"`-delimited run without escape processing; an
unterminated string produces an `ILLEGAL` token with a diagnostic lexeme. -/
def readString (l : Lexer) : Token × Lexer :=
  let start := l.position
  let startCol := l.column
  let l1 := l.advance
  let endPos := scanWhile l1.input l1.position (fun c => !(c == '"'))
  let l2 : Lexer :=
    { l1 with position := endPos, column := l1.column + (endPos - l1.position) }
  if l2.input.length ≤ l2.position then
    ({ type := .ILLEGAL, value := "unterminated string",
       line := l2.line, column := startCol }, l2)
  else
    let value := String.mk ((l2.input.drop (start + 1)).take (endPos - (start + 1)))
    ({ type := .STRING, value := value, line := l2.line, column := startCol },
     l2.advance)

/-- `l.readNumber()`: a run of ASCII digits optionally containing dots. -/
def readNumber (l : Lexer) : Token × Lexer :=
  let start := l.position
  let startCol := l.column
  let endPos := scanWhile l.input l.position (fun c => c.isDigit || c == '.')
  let value := String.mk ((l.input.drop start).take (endPos - start))
  ({ type := .NUMBER, value := value, line := l.line, column := startCol },
   { l with position := endPos, column := l.column + (endPos - start) })

/-- `l.getKeywordType(identifier)`: the fixed keyword table. -/
def getKeywordType (identifier : String) : TokenType :=
  if identifier == "grid" then .GRID
  else if identifier == "pace" then .PACE
  else if identifier == "circuit" then .CIRCUIT
  else if identifier == "else_circuit" then .ELSE_CIRCUIT
  else if identifier == "loop" then .LOOP
  else if identifier == "while_racing" then .WHILE_RACING
  else if identifier == "return_pit" then .RETURN_PIT
  else if identifier == "break_flag" then .BREAK_FLAG
  else if identifier == "continue_race" then .CONTINUE_RACE
  else if identifier == "formation" then .FORMATION
  else if identifier == "garage" then .GARAGE
  else if identifier == "true" then .BOOLEAN
  else if identifier == "false" then .BOOLEAN
  else .IDENTIFIER

/-- `l.readIdentifier()`: letters, digits and underscores, then the keyword
table.  (Letters are modelled as ASCII; the claims only involve ASCII.) -/
def readIdentifier (l : Lexer) : Token × Lexer :=
  let start := l.position
  let startCol := l.column
  let endPos := scanWhile l.input l.position
    (fun c => c.isAlpha || c.isDigit || c == '_')
  let value := String.mk ((l.input.drop start).take (endPos - start))
  ({ type := getKeywordType value, value := value,
     line := l.line, column := startCol },
   { l with position := endPos, column := l.column + (endPos - start) })

/-- `l.singleCharToken(tokenType)`. -/
def singleCharToken (l : Lexer) (tokenType : TokenType) : Token × Lexer :=
  ({ type := tokenType, value := String.mk [l.input.getD l.position (Char.ofNat 0)],
     line := l.line, column := l.column }, l.advance)

/-- Two-character operator: two advances, then the token is built with the
updated column minus two, exactly as in the source. -/
def twoCharToken (l : Lexer) (tokenType : TokenType) (value : String) :
    Token × Lexer :=
  let l2 := l.advance.advance
  ({ type := tokenType, value := value, line := l2.line, column := l2.column - 2 },
   l2)

/-- `l.NextToken()`, with fuel for the restart after a `//` comment. -/
def NextTokenAux : Nat → Lexer → Token × Lexer
  | 0, l => ({ type := .EOF, value := "", line := l.line, column := l.column }, l)
  | fuel+1, l0 =>
    let l := skipWhitespace l0
    match l.input[l.position]? with
    | none => ({ type := .EOF, value := "", line := l.line, column := l.column }, l)
    | some ch =>
      if ch == '/' && l.peek == '/' then NextTokenAux fuel (skipComment l)
      else if ch == '\n' then
        ({ type := .NEWLINE, value := String.mk [ch], line := l.line,
           column := l.column },
         { input := l.input, position := l.position + 1, line := l.line + 1,
           column := 1 })
      else if ch == '=' then
        if l.peek == '=' then twoCharToken l .EQUAL "=="
        else singleCharToken l .ASSIGN
      else if ch == '+' then singleCharToken l .PLUS
      else if ch == '-' then singleCharToken l .MINUS
      else if ch == '*' then singleCharToken l .MULTIPLY
      else if ch == '/' then singleCharToken l .DIVIDE
      else if ch == '%' then singleCharToken l .MODULO
      else if ch == '!' then
        if l.peek == '=' then twoCharToken l .NOT_EQUAL "!="
        else singleCharToken l .NOT
      else if ch == '<' then
        if l.peek == '=' then twoCharToken l .LESS_EQUAL "<="
        else singleCharToken l .LESS
      else if ch == '>' then
        if l.peek == '=' then twoCharToken l .GREATER_EQUAL ">="
        else singleCharToken l .GREATER
      else if ch == '&' then
        if l.peek == '&' then twoCharToken l .AND "&&"
        else ({ type := .ILLEGAL, value := String.mk [ch], line := l.line,
                column := l.column }, l)
      else if ch == '|' then
        if l.peek == '|' then twoCharToken l .OR "||"
        else ({ type := .ILLEGAL, value := String.mk [ch], line := l.line,
                column := l.column }, l)
      else if ch == ';' then singleCharToken l .SEMICOLON
      else if ch == ',' then singleCharToken l .COMMA
      else if ch == '.' then singleCharToken l .DOT
      else if ch == '(' then singleCharToken l .LPAREN
      else if ch == ')' then singleCharToken l .RPAREN
      else if ch == '{' then singleCharToken l .LBRACE
      else if ch == '}' then singleCharToken l .RBRACE
      else if ch == '[' then singleCharToken l .LBRACKET
      else if ch == ']' then singleCharToken l .RBRACKET
      else if ch == '"' then readString l
      else if ch.isDigit then readNumber l
      else if ch.isAlpha || ch == '_' then readIdentifier l
      else ({ type := .ILLEGAL, value := String.mk [ch], line := l.line,
              column := l.column }, l)

/-- `l.NextToken()`.  The fuel bound is enough for any chain of comment
restarts, each of which strictly advances the position. -/
def NextToken (l : Lexer) : Token × Lexer :=
  NextTokenAux (l.input.length + 1 - l.position) l

/-- The full token stream: repeated `NextToken` calls up to the first `EOF`
(the list includes that final `EOF` token). -/
def tokenizeAux : Nat → Lexer → List Token
  | 0, _ => []
  | fuel+1, l =>
    let tl := NextToken l
    if tl.1.type == .EOF then [tl.1] else tl.1 :: tokenizeAux fuel tl.2

def tokenize (s : String) : List Token :=
  tokenizeAux (s.length + 1) (NewLexer s)

/-! ### AST (from the AST source)

Pointer fields that the evaluator checks against `nil` (`LoopStatement.Init`,
`LoopStatement.Condition`, `LoopStatement.Update`, `ReturnPitStatement.Value`,
`CircuitStatement.Alternative`) are modelled as `Option`.  Block bodies are
the underlying statement lists of the Go `*BlockStatement` values. -/

mutual
inductive Expr where
  | ident (value : String)
  | numberLit (value : ℚ)
  | stringLit (value : String)
  | booleanLit (value : Bool)
  | formationLit (elements : List Expr)
  | indexExpr (left index : Expr)
  | infixExpr (left : Expr) (operator : String) (right : Expr)
  | prefixExpr (operator : String) (right : Expr)
  | call (function : Expr) (arguments : List Expr)
  | assign (name : String) (value : Expr)

inductive Stmt where
  | grid (name : String) (value : Expr)
  | pace (name : String) (parameters : List String) (body : List Stmt)
  | circuit (condition : Expr) (consequence : List Stmt)
      (alternative : Option (List Stmt))
  | loop (init : Option Stmt) (condition : Option Expr)
      (update : Option Stmt) (body : List Stmt)
  | whileRacing (condition : Expr) (body : List Stmt)
  | returnPit (value : Option Expr)
  | breakFlag
  | continueRace
  | block (statements : List Stmt)
  | exprStmt (expression : Expr)
end

/-! ### Number literal parsing (`strconv.ParseFloat` on lexer `NUMBER`
lexemes, which consist of digits and dots; values are modelled exactly) -/

/-- Split a character list on `.` separators. -/
def splitOnDot : List Char → List (List Char)
  | [] => [[]]
  | c :: rest =>
    match splitOnDot rest with
    | [] => [[]]
    | grp :: more => if c == '.' then [] :: grp :: more else (c :: grp) :: more

/-- Decimal digits to a natural number; `none` on a non-digit. -/
def digitsToNatAux : List Char → Nat → Option Nat
  | [], acc => some acc
  | c :: rest, acc =>
    if c.isDigit then digitsToNatAux rest (acc * 10 + (c.toNat - 48)) else none

def digitsToNat (cs : List Char) : Option Nat :=
  digitsToNatAux cs 0

/-- The exact value `strconv.ParseFloat` accepts for a digits-and-dots lexeme:
an optional single dot with a possibly empty fraction part.  More than one
dot is a parse failure (`could not parse ... as number`). -/
def parseNumberString (s : String) : Option ℚ :=
  match splitOnDot s.data with
  | [a] =>
    if a.isEmpty then none
    else (digitsToNat a).map natToRat
  | [a, b] =>
    if a.isEmpty then none
    else
      match digitsToNat a, digitsToNat b with
      | some m, some f =>
        some (Rat.divInt (Int.ofNat (m * 10 ^ b.length + f))
          (Int.ofNat (10 ^ b.length)))
      | _, _ => none
  | _ => none

/-! ### Parser (from the parser source)

The Go parser pulls tokens lazily from the lexer and keeps a two-token
window; since the lexer is deterministic this is equivalent to walking the
pre-computed `tokenize` stream with a cursor, which is how it is modelled:
`pos` points at `currentToken` and `pos + 1` at `peekToken`.  A Go `nil`
AST node is modelled as `none`; when a Go parse function builds a node
around a `nil` child (possible only after a diagnostic has been recorded)
the model returns `none` for the whole node instead. -/

structure ParserState where
  toks : List Token
  pos : Nat
  errors : List String
deriving Repr

def eofToken : Token := { type := .EOF, value := "", line := 0, column := 0 }

def currentToken (p : ParserState) : Token := p.toks.getD p.pos eofToken

def peekToken (p : ParserState) : Token := p.toks.getD (p.pos + 1) eofToken

/-- `p.nextToken()`. -/
def pAdvance (p : ParserState) : ParserState := { p with pos := p.pos + 1 }

/-- Precedence levels, numbered as in the source (`LOWEST = 1` ...). -/
def LOWEST : Nat := 1
def LOGICAL : Nat := 2
def EQUALS : Nat := 3
def LESSGREATER : Nat := 4
def SUM : Nat := 5
def PRODUCT : Nat := 6
def PREFIX : Nat := 7
def CALL : Nat := 8
def INDEX : Nat := 9

/-- The `precedences` table; unlisted kinds fall back to `LOWEST`. -/
def precedences : TokenType → Nat
  | .AND => LOGICAL | .OR => LOGICAL
  | .EQUAL => EQUALS | .NOT_EQUAL => EQUALS
  | .LESS => LESSGREATER | .GREATER => LESSGREATER
  | .LESS_EQUAL => LESSGREATER | .GREATER_EQUAL => LESSGREATER
  | .PLUS => SUM | .MINUS => SUM
  | .DIVIDE => PRODUCT | .MULTIPLY => PRODUCT | .MODULO => PRODUCT
  | .ASSIGN => EQUALS
  | .LPAREN => CALL
  | .LBRACKET => INDEX
  | _ => LOWEST

def curPrecedence (p : ParserState) : Nat := precedences (currentToken p).type

def peekPrecedence (p : ParserState) : Nat := precedences (peekToken p).type

def peekError (p : ParserState) (t : TokenType) : ParserState :=
  { p with errors := p.errors ++
      ["expected next token to be " ++ tokenTypeName t ++ ", got " ++
       tokenTypeName (peekToken p).type ++ " instead"] }

/-- `p.expectPeek(t)`: advance on a match, else record a diagnostic. -/
def expectPeek (p : ParserState) (t : TokenType) : Bool × ParserState :=
  if (peekToken p).type == t then (true, pAdvance p) else (false, peekError p t)

def noPrefixParseFnError (p : ParserState) (t : TokenType) : ParserState :=
  { p with errors := p.errors ++
      ["no prefix parse function for " ++ tokenTypeName t ++ " found"] }

def parseBreakFlagStatement (p : ParserState) : Option Stmt × ParserState :=
  let p1 := if (peekToken p).type == .SEMICOLON then pAdvance p else p
  (some .breakFlag, p1)

def parseContinueRaceStatement (p : ParserState) : Option Stmt × ParserState :=
  let p1 := if (peekToken p).type == .SEMICOLON then pAdvance p else p
  (some .continueRace, p1)

mutual

/-- `p.parseStatement()`: dispatch on the current token kind. -/
def parseStatement : Nat → ParserState → Option Stmt × ParserState
  | 0, p => (none, p)
  | fuel+1, p =>
    match (currentToken p).type with
    | .GRID => parseGridStatement fuel p
    | .PACE => parsePaceStatement fuel p
    | .CIRCUIT => parseCircuitStatement fuel p
    | .LOOP => parseLoopStatement fuel p
    | .WHILE_RACING => parseWhileRacingStatement fuel p
    | .RETURN_PIT => parseReturnPitStatement fuel p
    | .BREAK_FLAG => parseBreakFlagStatement p
    | .CONTINUE_RACE => parseContinueRaceStatement p
    | .LBRACE =>
      match parseBlockStatement fuel p with
      | (stmts, p') => (some (.block stmts), p')
    | _ => parseExpressionStatement fuel p
termination_by structural fuel => fuel

def parseGridStatement : Nat → ParserState → Option Stmt × ParserState
  | 0, p => (none, p)
  | fuel+1, p =>
    match expectPeek p .IDENTIFIER with
    | (false, p1) => (none, p1)
    | (true, p1) =>
      let name := (currentToken p1).value
      match expectPeek p1 .ASSIGN with
      | (false, p2) => (none, p2)
      | (true, p2) =>
        let p3 := pAdvance p2
        match parseExpression fuel LOWEST p3 with
        | (value, p4) =>
          let p5 := if (peekToken p4).type == .SEMICOLON then pAdvance p4 else p4
          (value.map (.grid name), p5)

def parsePaceStatement : Nat → ParserState → Option Stmt × ParserState
  | 0, p => (none, p)
  | fuel+1, p =>
    match expectPeek p .IDENTIFIER with
    | (false, p1) => (none, p1)
    | (true, p1) =>
      let name := (currentToken p1).value
      match expectPeek p1 .LPAREN with
      | (false, p2) => (none, p2)
      | (true, p2) =>
        match parseFunctionParameters fuel p2 with
        | (params, p3) =>
          match expectPeek p3 .LBRACE with
          | (false, p4) => (none, p4)
          | (true, p4) =>
            match parseBlockStatement fuel p4 with
            | (body, p5) => (some (.pace name (params.getD []) body), p5)
termination_by structural fuel => fuel

/-- `p.parseFunctionParameters()`: the source takes `currentToken.Value`
for each parameter without checking its kind. -/
def parseFunctionParameters : Nat → ParserState →
    Option (List String) × ParserState
  | 0, p => (none, p)
  | fuel+1, p =>
    if (peekToken p).type == .RPAREN then (some [], pAdvance p)
    else
      let p1 := pAdvance p
      let first := (currentToken p1).value
      match parseFunctionParametersLoop fuel [first] p1 with
      | (idents, p2) => (idents, p2)

def parseFunctionParametersLoop : Nat → List String → ParserState →
    Option (List String) × ParserState
  | 0, _, p => (none, p)
  | fuel+1, acc, p =>
    if (peekToken p).type == .COMMA then
      let p1 := pAdvance (pAdvance p)
      parseFunctionParametersLoop fuel (acc ++ [(currentToken p1).value]) p1
    else
      match expectPeek p .RPAREN with
      | (false, p1) => (none, p1)
      | (true, p1) => (some acc, p1)
termination_by structural fuel => fuel

def parseCircuitStatement : Nat → ParserState → Option Stmt × ParserState
  | 0, p => (none, p)
  | fuel+1, p =>
    match expectPeek p .LPAREN with
    | (false, p1) => (none, p1)
    | (true, p1) =>
      let p2 := pAdvance p1
      match parseExpression fuel LOWEST p2 with
      | (cond, p3) =>
        match expectPeek p3 .RPAREN with
        | (false, p4) => (none, p4)
        | (true, p4) =>
          match expectPeek p4 .LBRACE with
          | (false, p5) => (none, p5)
          | (true, p5) =>
            match parseBlockStatement fuel p5 with
            | (cons, p6) =>
              if (peekToken p6).type == .ELSE_CIRCUIT then
                let p7 := pAdvance p6
                match expectPeek p7 .LBRACE with
                | (false, p8) => (none, p8)
                | (true, p8) =>
                  match parseBlockStatement fuel p8 with
                  | (alt, p9) =>
                    (cond.map (fun c => .circuit c cons (some alt)), p9)
              else (cond.map (fun c => .circuit c cons none), p6)
termination_by structural fuel => fuel

def parseLoopStatement : Nat → ParserState → Option Stmt × ParserState
  | 0, p => (none, p)
  | fuel+1, p =>
    match expectPeek p .LPAREN with
    | (false, p1) => (none, p1)
    | (true, p1) =>
      let p2 := pAdvance p1
      match parseStatement fuel p2 with
      | (init, p3) =>
        let p4 := if (currentToken p3).type == .SEMICOLON then pAdvance p3 else p3
        match parseExpression fuel LOWEST p4 with
        | (cond, p5) =>
          match expectPeek p5 .SEMICOLON with
          | (false, p6) => (none, p6)
          | (true, p6) =>
            let p7 := pAdvance p6
            match parseExpressionStatement fuel p7 with
            | (update, p8) =>
              match expectPeek p8 .RPAREN with
              | (false, p9) => (none, p9)
              | (true, p9) =>
                match expectPeek p9 .LBRACE with
                | (false, p10) => (none, p10)
                | (true, p10) =>
                  match parseBlockStatement fuel p10 with
                  | (body, p11) =>
                    (cond.map (fun c => .loop init (some c) update body), p11)
termination_by structural fuel => fuel

def parseWhileRacingStatement : Nat → ParserState → Option Stmt × ParserState
  | 0, p => (none, p)
  | fuel+1, p =>
    match expectPeek p .LPAREN with
    | (false, p1) => (none, p1)
    | (true, p1) =>
      let p2 := pAdvance p1
      match parseExpression fuel LOWEST p2 with
      | (cond, p3) =>
        match expectPeek p3 .RPAREN with
        | (false, p4) => (none, p4)
        | (true, p4) =>
          match expectPeek p4 .LBRACE with
          | (false, p5) => (none, p5)
          | (true, p5) =>
            match parseBlockStatement fuel p5 with
            | (body, p6) => (cond.map (fun c => .whileRacing c body), p6)
termination_by structural fuel => fuel

def parseReturnPitStatement : Nat → ParserState → Option Stmt × ParserState
  | 0, p => (none, p)
  | fuel+1, p =>
    if (peekToken p).type != .SEMICOLON && (peekToken p).type != .NEWLINE then
      let p1 := pAdvance p
      match parseExpression fuel LOWEST p1 with
      | (value, p2) =>
        let p3 := if (peekToken p2).type == .SEMICOLON then pAdvance p2 else p2
        (value.map (fun v => .returnPit (some v)), p3)
    else
      let p1 := if (peekToken p).type == .SEMICOLON then pAdvance p else p
      (some (.returnPit none), p1)

def parseBlockStatement : Nat → ParserState → List Stmt × ParserState
  | 0, p => ([], p)
  | fuel+1, p => parseBlockStatementLoop fuel [] (pAdvance p)
termination_by structural fuel => fuel

def parseBlockStatementLoop : Nat → List Stmt → ParserState →
    List Stmt × ParserState
  | 0, acc, p => (acc, p)
  | fuel+1, acc, p =>
    if (currentToken p).type != .RBRACE && (currentToken p).type != .EOF then
      if (currentToken p).type == .NEWLINE then
        parseBlockStatementLoop fuel acc (pAdvance p)
      else
        match parseStatement fuel p with
        | (stmt, p1) =>
          let acc' := match stmt with | some s => acc ++ [s] | none => acc
          parseBlockStatementLoop fuel acc' (pAdvance p1)
    else (acc, p)
termination_by structural fuel => fuel

def parseExpressionStatement : Nat → ParserState → Option Stmt × ParserState
  | 0, p => (none, p)
  | fuel+1, p =>
    match parseExpression fuel LOWEST p with
    | (e, p1) =>
      let p2 := if (peekToken p1).type == .SEMICOLON then pAdvance p1 else p1
      (e.map .exprStmt, p2)

/-- `p.parseExpression(precedence)`: prefix dispatch, then the infix loop. -/
def parseExpression : Nat → Nat → ParserState → Option Expr × ParserState
  | 0, _, p => (none, p)
  | fuel+1, precedence, p =>
    match (currentToken p).type with
    | .IDENTIFIER =>
      parseInfixLoop fuel precedence (some (.ident (currentToken p).value)) p
    | .NUMBER =>
      match parseNumberString (currentToken p).value with
      | some v => parseInfixLoop fuel precedence (some (.numberLit v)) p
      | none =>
        parseInfixLoop fuel precedence none
          { p with errors := p.errors ++
            ["could not parse \"" ++ (currentToken p).value ++ "\" as number"] }
    | .STRING =>
      parseInfixLoop fuel precedence (some (.stringLit (currentToken p).value)) p
    | .BOOLEAN =>
      parseInfixLoop fuel precedence
        (some (.booleanLit ((currentToken p).value == "true"))) p
    | .LBRACKET =>
      match parseExpressionList fuel .RBRACKET p with
      | (elems, p1) =>
        parseInfixLoop fuel precedence (some (.formationLit (elems.getD []))) p1
    | .MINUS => parsePrefixThenLoop fuel precedence p
    | .NOT => parsePrefixThenLoop fuel precedence p
    | .LPAREN =>
      let p1 := pAdvance p
      match parseExpression fuel LOWEST p1 with
      | (e, p2) =>
        match expectPeek p2 .RPAREN with
        | (false, p3) => parseInfixLoop fuel precedence none p3
        | (true, p3) => parseInfixLoop fuel precedence e p3
    | t => (none, noPrefixParseFnError p t)
termination_by structural fuel => fuel

/-- The prefix-operator handler followed by the infix loop. -/
def parsePrefixThenLoop : Nat → Nat → ParserState → Option Expr × ParserState
  | 0, _, p => (none, p)
  | fuel+1, precedence, p =>
    let op := (currentToken p).value
    let p1 := pAdvance p
    match parseExpression fuel PREFIX p1 with
    | (right, p2) =>
      parseInfixLoop fuel precedence (right.map (.prefixExpr op)) p2
termination_by structural fuel => fuel

/-- The `for peek != ';' && precedence < peekPrecedence` loop of
`parseExpression`, dispatching on the peek token kind. -/
def parseInfixLoop : Nat → Nat → Option Expr → ParserState →
    Option Expr × ParserState
  | 0, _, left, p => (left, p)
  | fuel+1, precedence, left, p =>
    if (peekToken p).type != .SEMICOLON && precedence < peekPrecedence p then
      match (peekToken p).type with
      | .PLUS => parseInfixStep fuel precedence left p
      | .MINUS => parseInfixStep fuel precedence left p
      | .DIVIDE => parseInfixStep fuel precedence left p
      | .MULTIPLY => parseInfixStep fuel precedence left p
      | .MODULO => parseInfixStep fuel precedence left p
      | .EQUAL => parseInfixStep fuel precedence left p
      | .NOT_EQUAL => parseInfixStep fuel precedence left p
      | .LESS => parseInfixStep fuel precedence left p
      | .GREATER => parseInfixStep fuel precedence left p
      | .LESS_EQUAL => parseInfixStep fuel precedence left p
      | .GREATER_EQUAL => parseInfixStep fuel precedence left p
      | .AND => parseInfixStep fuel precedence left p
      | .OR => parseInfixStep fuel precedence left p
      | .LPAREN =>
        let p1 := pAdvance p
        match parseExpressionList fuel .RPAREN p1 with
        | (args, p2) =>
          parseInfixLoop fuel precedence
            (left.map (fun l => .call l (args.getD []))) p2
      | .LBRACKET =>
        let p1 := pAdvance p
        let p2 := pAdvance p1
        match parseExpression fuel LOWEST p2 with
        | (idx, p3) =>
          match expectPeek p3 .RBRACKET with
          | (false, p4) => parseInfixLoop fuel precedence none p4
          | (true, p4) =>
            parseInfixLoop fuel precedence
              (match left, idx with
               | some l, some i => some (.indexExpr l i)
               | _, _ => none) p4
      | .ASSIGN =>
        let p1 := pAdvance p
        match left with
        | some (.ident name) =>
          let p2 := pAdvance p1
          match parseExpression fuel LOWEST p2 with
          | (v, p3) =>
            parseInfixLoop fuel precedence (v.map (.assign name)) p3
        | _ =>
          parseInfixLoop fuel precedence none
            { p1 with errors := p1.errors ++ ["invalid assignment target"] }
      | _ => (left, p)
    else (left, p)
termination_by structural fuel => fuel

/-- One binary-operator step: `p.parseInfixExpression(left)` then back to
the loop. -/
def parseInfixStep : Nat → Nat → Option Expr → ParserState →
    Option Expr × ParserState
  | 0, _, left, p => (left, p)
  | fuel+1, precedence, left, p =>
    let p1 := pAdvance p
    let op := (currentToken p1).value
    let opPrec := curPrecedence p1
    let p2 := pAdvance p1
    match parseExpression fuel opPrec p2 with
    | (right, p3) =>
      parseInfixLoop fuel precedence
        (match left, right with
         | some l, some r => some (.infixExpr l op r)
         | _, _ => none) p3
termination_by structural fuel => fuel

/-- `p.parseExpressionList(end)`. -/
def parseExpressionList : Nat → TokenType → ParserState →
    Option (List Expr) × ParserState
  | 0, _, p => (none, p)
  | fuel+1, endTok, p =>
    if (peekToken p).type == endTok then (some [], pAdvance p)
    else
      let p1 := pAdvance p
      match parseExpression fuel LOWEST p1 with
      | (e, p2) =>
        parseExpressionListLoop fuel endTok (e.map (fun x => [x])) p2
termination_by structural fuel => fuel

def parseExpressionListLoop : Nat → TokenType → Option (List Expr) →
    ParserState → Option (List Expr) × ParserState
  | 0, _, acc, p => (acc, p)
  | fuel+1, endTok, acc, p =>
    if (peekToken p).type == .COMMA then
      let p1 := pAdvance (pAdvance p)
      match parseExpression fuel LOWEST p1 with
      | (e, p2) =>
        parseExpressionListLoop fuel endTok
          (match acc, e with
           | some xs, some x => some (xs ++ [x])
           | _, _ => none) p2
    else
      match expectPeek p endTok with
      | (false, p1) => (none, p1)
      | (true, p1) => (acc, p1)
termination_by structural fuel => fuel

end

/-- The `ParseProgram` loop: skip newlines, parse a statement, advance. -/
def parseProgramLoop : Nat → List Stmt → ParserState →
    List Stmt × ParserState
  | 0, acc, p => (acc, p)
  | fuel+1, acc, p =>
    if (currentToken p).type != .EOF then
      if (currentToken p).type == .NEWLINE then
        parseProgramLoop fuel acc (pAdvance p)
      else
        match parseStatement fuel p with
        | (stmt, p1) =>
          let acc' := match stmt with | some s => acc ++ [s] | none => acc
          parseProgramLoop fuel acc' (pAdvance p1)
    else (acc, p)

/-- Lex and parse a source string, as `NewParser` + `ParseProgram` do;
returns the program statements and the accumulated diagnostics.  The fuel
is ample for every program considered here (the parser stops at `EOF`
regardless of leftover fuel). -/
def parseSource (s : String) : List Stmt × List String :=
  let toks := tokenize s
  let p0 : ParserState := { toks := toks, pos := 0, errors := [] }
  match parseProgramLoop (20 * toks.length + 20) [] p0 with
  | (stmts, p) => (stmts, p.errors)

/-! ### Runtime values (from the object source)

`Obj.goNil` models Go's untyped `nil` `Object` (the value of an empty
block, and of `evalProgram` on an empty program).  Booleans and null are
canonical singletons in the source (`TRUE`, `FALSE`, `NULL`), so Go
pointer identity on them coincides with the value equality used here. -/

inductive Obj where
  | number (value : ℚ)
  | strVal (value : String)
  | boolean (value : Bool)
  | null
  | returnValue (value : Obj)
  | error (message : String)
  | func (parameters : List String) (body : List Stmt) (env : Nat)
  | builtin (name : String)
  | array (elements : List Obj)
  | brk
  | cont
  | goNil

/-- Go's `%T` formatting of an `Object`, as used in error messages. -/
def goTypeName : Obj → String
  | .number _ => "*main.Number"
  | .strVal _ => "*main.String"
  | .boolean _ => "*main.Boolean"
  | .null => "*main.Null"
  | .returnValue _ => "*main.ReturnValue"
  | .error _ => "*main.Error"
  | .func _ _ _ => "*main.Function"
  | .builtin _ => "*main.Builtin"
  | .array _ => "*main.Array"
  | .brk => "*main.Break"
  | .cont => "*main.Continue"
  | .goNil => "<nil>"

/-- `Object.Type()` (the `ObjectType` string constants).  Calling it on a
Go `nil` object panics; callers below check for `goNil` first. -/
def objType : Obj → String
  | .number _ => "NUMBER"
  | .strVal _ => "STRING"
  | .boolean _ => "BOOLEAN"
  | .null => "NULL"
  | .returnValue _ => "RETURN_VALUE"
  | .error _ => "ERROR"
  | .func _ _ _ => "FUNCTION"
  | .builtin _ => "BUILTIN"
  | .array _ => "ARRAY"
  | .brk => "BREAK"
  | .cont => "CONTINUE"
  | .goNil => "<nil>"

/-- Constructor discriminator, used to decide Go dynamic-type equality of
interface values (two values of different dynamic types are never
pointer-identical). -/
def objKindIdx : Obj → Nat
  | .number _ => 0
  | .strVal _ => 1
  | .boolean _ => 2
  | .null => 3
  | .returnValue _ => 4
  | .error _ => 5
  | .func _ _ _ => 6
  | .builtin _ => 7
  | .array _ => 8
  | .brk => 9
  | .cont => 10
  | .goNil => 11

def Obj.isGoNil : Obj → Bool
  | .goNil => true
  | _ => false

/-! ### Environment (from the object source: `Environment`, `Get`, `Set`)

A Go `*Environment` is an index into a heap of scopes; `outer` pointers
always refer to scopes created earlier, hence to smaller indices. -/

structure Scope where
  store : List (String × Obj)
  outer : Option Nat

abbrev Heap := List Scope

/-- Write into a Go map modelled as an association list (replace the
binding for the key, or append a fresh one). -/
def storeSet : List (String × Obj) → String → Obj → List (String × Obj)
  | [], name, val => [(name, val)]
  | (m, w) :: rest, name, val =>
    if m == name then (m, val) :: rest else (m, w) :: storeSet rest name val

/-- Read from a Go map modelled as an association list. -/
def storeGet : List (String × Obj) → String → Option Obj
  | [], _ => none
  | (m, w) :: rest, name => if m == name then some w else storeGet rest name

/-- `e.Get(name)`: search the current scope, then the outer chain.  The
fuel `r + 1` is always enough because every `outer` pointer refers to a
smaller heap index. -/
def EnvGetAux : Nat → Heap → Nat → String → Option Obj
  | 0, _, _, _ => none
  | fuel+1, h, r, name =>
    match h[r]? with
    | none => none
    | some sc =>
      match storeGet sc.store name with
      | some v => some v
      | none =>
        match sc.outer with
        | none => none
        | some r2 => EnvGetAux fuel h r2 name

def EnvGet (h : Heap) (r : Nat) (name : String) : Option Obj :=
  EnvGetAux (r + 1) h r name

/-- `e.Set(name, val)`: write into the store of scope `r` only. -/
def EnvSet (h : Heap) (r : Nat) (name : String) (val : Obj) : Heap :=
  match h[r]? with
  | none => h
  | some sc => h.set r { sc with store := storeSet sc.store name val }

/-- `NewEnclosedEnvironment(outer)`: a fresh empty scope whose `outer`
pointer is the given environment; it lives at index `h.length`. -/
def NewEnclosedEnvironment (h : Heap) (outer : Nat) : Heap × Nat :=
  (h ++ [{ store := [], outer := some outer }], h.length)

/-! ### Pure evaluation helpers (from the interpreter source) -/

/-- `nativeBoolToBooleanObject`. -/
def nativeBoolToBooleanObject (input : Bool) : Obj := .boolean input

/-- `isTruthy`: the source compares against the canonical singletons, so a
Go `nil` object falls into the default (truthy) branch. -/
def isTruthy : Obj → Bool
  | .null => false
  | .boolean b => b
  | _ => true

/-- `isError` (false on Go `nil`). -/
def isError : Obj → Bool
  | .error _ => true
  | _ => false

/-- `evalBangOperatorExpression`: switches on the canonical singletons;
everything else (including Go `nil`) is the default `FALSE` branch. -/
def evalBangOperatorExpression : Obj → Obj
  | .boolean b => .boolean (!b)
  | .null => .boolean true
  | _ => .boolean false

/-- `evalMinusPrefixOperatorExpression`; `none` models the panic of
calling `Type()` on a Go `nil` object. -/
def evalMinusPrefixOperatorExpression : Obj → Option Obj
  | .goNil => none
  | .number v => some (.number (Rat.neg v))
  | r => some (.error ("unknown operator: -" ++ goTypeName r))

/-- `evalPrefixExpression`. -/
def evalPrefixExpression (operator : String) (right : Obj) : Option Obj :=
  if operator == "!" then some (evalBangOperatorExpression right)
  else if operator == "-" then evalMinusPrefixOperatorExpression right
  else some (.error ("unknown operator: " ++ operator ++ goTypeName right))

/-- `evalNumberInfixExpression`.  `%` converts both operands with `int(..)`
(truncation toward zero) and takes the Go `%`, whose sign follows the
dividend (`Int.tmod`); when the right operand truncates to `0` the Go
runtime panics with an integer divide by zero, modelled as `none`. -/
def evalNumberInfixExpression (operator : String) (leftVal rightVal : ℚ) :
    Option Obj :=
  if operator == "+" then some (.number (ratAdd leftVal rightVal))
  else if operator == "-" then some (.number (ratSub leftVal rightVal))
  else if operator == "*" then some (.number (ratMul leftVal rightVal))
  else if operator == "/" then
    if rightVal = 0 then some (.error "division by zero")
    else some (.number (ratDiv leftVal rightVal))
  else if operator == "%" then
    if ratTrunc rightVal = 0 then none
    else some (.number (intToRat ((ratTrunc leftVal).tmod (ratTrunc rightVal))))
  else if operator == "<" then
    some (nativeBoolToBooleanObject (Rat.blt leftVal rightVal))
  else if operator == ">" then
    some (nativeBoolToBooleanObject (Rat.blt rightVal leftVal))
  else if operator == "<=" then
    some (nativeBoolToBooleanObject (!Rat.blt rightVal leftVal))
  else if operator == ">=" then
    some (nativeBoolToBooleanObject (!Rat.blt leftVal rightVal))
  else if operator == "==" then
    some (nativeBoolToBooleanObject (decide (leftVal = rightVal)))
  else if operator == "!=" then
    some (nativeBoolToBooleanObject (!decide (leftVal = rightVal)))
  else some (.error ("unknown operator: " ++ operator))

/-- `evalStringInfixExpression`. -/
def evalStringInfixExpression (operator : String) (leftVal rightVal : String) :
    Obj :=
  if operator == "+" then .strVal (leftVal ++ rightVal)
  else if operator == "==" then nativeBoolToBooleanObject (leftVal == rightVal)
  else if operator == "!=" then nativeBoolToBooleanObject (leftVal != rightVal)
  else .error ("unknown operator: *main.String " ++ operator ++ " *main.String")

/-- Go interface identity `left == right` for the operand values that can
reach the `==`/`!=` fallback.  Booleans and null are canonical singletons,
the three builtins are allocated once each, and values of different
dynamic types are never identical; identity of two arrays or two user
functions depends on pointer sharing the embedding does not track
(`none`). -/
def objIdentityEq : Obj → Obj → Option Bool
  | .boolean a, .boolean b => some (a == b)
  | .null, .null => some true
  | .builtin a, .builtin b => some (a == b)
  | a, b => if objKindIdx a == objKindIdx b then none else some false

/-- `evalInfixExpression`: dispatch by operand types in source order.
`none` models the `Type()`-on-nil panic and untracked pointer identity. -/
def evalInfixExpression (operator : String) (left right : Obj) : Option Obj :=
  if left.isGoNil || right.isGoNil then none
  else
    match left, right with
    | .number a, .number b => evalNumberInfixExpression operator a b
    | .strVal a, .strVal b => some (evalStringInfixExpression operator a b)
    | _, _ =>
      if operator == "&&" then
        some (nativeBoolToBooleanObject (isTruthy left && isTruthy right))
      else if operator == "||" then
        some (nativeBoolToBooleanObject (isTruthy left || isTruthy right))
      else if operator == "==" then
        (objIdentityEq left right).map nativeBoolToBooleanObject
      else if operator == "!=" then
        (objIdentityEq left right).map (fun b => nativeBoolToBooleanObject (!b))
      else if objType left != objType right then
        some (.error ("type mismatch: " ++ goTypeName left ++ " " ++ operator ++
          " " ++ goTypeName right))
      else
        some (.error ("unknown operator: " ++ goTypeName left ++ " " ++
          operator ++ " " ++ goTypeName right))

/-- `evalArrayIndexExpression`: truncate the index; out of range (negative
or past the last element) yields `NULL`. -/
def evalArrayIndexExpression (elements : List Obj) (index : ℚ) : Obj :=
  let idx : Int := ratTrunc index
  let mx : Int := (elements.length : Int) - 1
  if decide (idx < 0) || decide (mx < idx) then .null
  else elements.getD idx.toNat .null

/-- `evalIndexExpression`. -/
def evalIndexExpression (left index : Obj) : Option Obj :=
  if left.isGoNil || index.isGoNil then none
  else
    match left, index with
    | .array elements, .number idx => some (evalArrayIndexExpression elements idx)
    | _, _ => some (.error ("index operator not supported: " ++ goTypeName left))

/-- `unwrapReturnValue`. -/
def unwrapReturnValue : Obj → Obj
  | .returnValue v => v
  | obj => obj

/-- The three builtins registered by `NewInterpreter`; `none` models the
panics on Go `nil` arguments (`Inspect()`/`Type()` on nil).  Output of
`telemetry` is not modelled; its result value is `NULL`. -/
def builtinApply : String → List Obj → Option Obj
  | "telemetry", args =>
    if args.any Obj.isGoNil then none else some .null
  | "length", args =>
    match args with
    | [arg] =>
      match arg with
      | .array elements => some (.number (natToRat elements.length))
      | .strVal s => some (.number (natToRat s.length))
      | a => some (.error ("argument to `length` not supported, got " ++
          goTypeName a))
    | _ => some (.error ("wrong number of arguments. got=" ++
        toString args.length ++ ", want=1"))
  | "push", args =>
    match args with
    | [a, b] =>
      if a.isGoNil then none
      else
        match a with
        | .array elements => some (.array (elements ++ [b]))
        | _ => some (.error ("argument to `push` must be ARRAY, got " ++
            goTypeName a))
    | _ => some (.error ("wrong number of arguments. got=" ++
        toString args.length ++ ", want=2"))
  | _, _ => none

/-- `extendFunctionEnv`'s binding loop: each parameter whose index is
below the argument count is `Set`; the rest are left unbound, and
leftover arguments are ignored. -/
def bindParams : Heap → Nat → List String → List Obj → Heap
  | h, _, [], _ => h
  | h, _, _ :: _, [] => h
  | h, r, pname :: ps, a :: as' => bindParams (EnvSet h r pname a) r ps as'

/-- `extendFunctionEnv(fn, args)`: a fresh scope enclosed by the captured
environment, with positional parameter bindings. -/
def extendFunctionEnv (h : Heap) (parameters : List String) (envRef : Nat)
    (args : List Obj) : Heap × Nat :=
  match NewEnclosedEnvironment h envRef with
  | (h1, r) => (bindParams h1 r parameters args, r)

/-- Is an object one of the four carriers intercepted by block
evaluation (`RETURN_VALUE`, `ERROR`, `BREAK`, `CONTINUE`)? -/
def isBlockCtrl : Obj → Bool
  | .returnValue _ => true
  | .error _ => true
  | .brk => true
  | .cont => true
  | _ => false

/-! ### Evaluator (from the interpreter source: `Eval` and its helpers)

`Eval` is split into `evalStmt`/`evalExpr` along the statement/expression
split of the AST.  Every function threads the scope heap and takes fuel;
`none` is fuel exhaustion or one of the modelled panics.  The `result`
accumulator parameters mirror the `var result Object` variables of
`evalProgram`, `evalBlockStatement` and the two loop evaluators (those
variables start as Go `nil` or `NULL` and carry the last statement's
value, including `Continue` carriers, across iterations). -/

mutual

def evalStmt : Nat → Stmt → Nat → Heap → Option (Obj × Heap)
  | 0, _, _, _ => none
  | fuel+1, stmt, env, h =>
    match stmt with
    | .grid name value =>
      match evalExpr fuel value env h with
      | none => none
      | some (v, h1) =>
        if isError v then some (v, h1) else some (v, EnvSet h1 env name v)
    | .pace name parameters body =>
      let fn : Obj := .func parameters body env
      some (fn, EnvSet h env name fn)
    | .circuit condition consequence alternative =>
      match evalExpr fuel condition env h with
      | none => none
      | some (c, h1) =>
        if isError c then some (c, h1)
        else if isTruthy c then evalBlockStmts fuel consequence env h1 .goNil
        else
          match alternative with
          | some alt => evalBlockStmts fuel alt env h1 .goNil
          | none => some (.null, h1)
    | .loop init condition update body =>
      match NewEnclosedEnvironment h env with
      | (h1, loopEnv) =>
        match init with
        | some initStmt =>
          match evalStmt fuel initStmt loopEnv h1 with
          | none => none
          | some (r0, h2) =>
            if isError r0 then some (r0, h2)
            else evalLoopIter fuel condition update body loopEnv h2 .null
        | none => evalLoopIter fuel condition update body loopEnv h1 .null
    | .whileRacing condition body =>
      evalWhileIter fuel condition body env h .null
    | .returnPit value =>
      match value with
      | none => some (.returnValue .null, h)
      | some e =>
        match evalExpr fuel e env h with
        | none => none
        | some (v, h1) =>
          if isError v then some (v, h1) else some (.returnValue v, h1)
    | .breakFlag => some (.brk, h)
    | .continueRace => some (.cont, h)
    | .block statements => evalBlockStmts fuel statements env h .goNil
    | .exprStmt e => evalExpr fuel e env h
termination_by structural fuel => fuel

def evalExpr : Nat → Expr → Nat → Heap → Option (Obj × Heap)
  | 0, _, _, _ => none
  | fuel+1, e, env, h =>
    match e with
    | .numberLit v => some (.number v, h)
    | .stringLit s => some (.strVal s, h)
    | .booleanLit b => some (nativeBoolToBooleanObject b, h)
    | .formationLit elements =>
      match evalExprList fuel elements env h [] with
      | none => none
      | some (objs, h1) =>
        match objs with
        | [o] => if isError o then some (o, h1) else some (.array objs, h1)
        | _ => some (.array objs, h1)
    | .indexExpr left index =>
      match evalExpr fuel left env h with
      | none => none
      | some (l, h1) =>
        if isError l then some (l, h1)
        else
          match evalExpr fuel index env h1 with
          | none => none
          | some (i, h2) =>
            if isError i then some (i, h2)
            else (evalIndexExpression l i).map (fun v => (v, h2))
    | .ident name =>
      match EnvGet h env name with
      | some v => some (v, h)
      | none => some (.error ("identifier not found: " ++ name), h)
    | .prefixExpr operator right =>
      match evalExpr fuel right env h with
      | none => none
      | some (r, h1) =>
        if isError r then some (r, h1)
        else (evalPrefixExpression operator r).map (fun v => (v, h1))
    | .infixExpr left operator right =>
      match evalExpr fuel left env h with
      | none => none
      | some (l, h1) =>
        if isError l then some (l, h1)
        else
          match evalExpr fuel right env h1 with
          | none => none
          | some (r, h2) =>
            if isError r then some (r, h2)
            else (evalInfixExpression operator l r).map (fun v => (v, h2))
    | .call function arguments =>
      match evalExpr fuel function env h with
      | none => none
      | some (fn, h1) =>
        if isError fn then some (fn, h1)
        else
          match evalExprList fuel arguments env h1 [] with
          | none => none
          | some (args, h2) =>
            match args with
            | [a] =>
              if isError a then some (a, h2)
              else applyFunction fuel fn args h2
            | _ => applyFunction fuel fn args h2
    | .assign name value =>
      match evalExpr fuel value env h with
      | none => none
      | some (v, h1) =>
        if isError v then some (v, h1) else some (v, EnvSet h1 env name v)
termination_by structural fuel => fuel

/-- `evalProgram`: only `*ReturnValue` (unwrapped) and `*Error` stop the
statement walk early; everything else is carried to the next statement. -/
def evalProgram : Nat → List Stmt → Nat → Heap → Obj → Option (Obj × Heap)
  | 0, _, _, _, _ => none
  | _+1, [], _, h, result => some (result, h)
  | fuel+1, s :: rest, env, h, _ =>
    match evalStmt fuel s env h with
    | none => none
    | some (result, h1) =>
      match result with
      | .returnValue v => some (v, h1)
      | .error m => some (.error m, h1)
      | _ => evalProgram fuel rest env h1 result
termination_by structural fuel => fuel

/-- `evalBlockStatement`: stop on `RETURN_VALUE`, `ERROR`, `BREAK` or
`CONTINUE` without unwrapping; blocks do not open a scope. -/
def evalBlockStmts : Nat → List Stmt → Nat → Heap → Obj → Option (Obj × Heap)
  | 0, _, _, _, _ => none
  | _+1, [], _, h, result => some (result, h)
  | fuel+1, s :: rest, env, h, _ =>
    match evalStmt fuel s env h with
    | none => none
    | some (result, h1) =>
      if isBlockCtrl result then some (result, h1)
      else evalBlockStmts fuel rest env h1 result
termination_by structural fuel => fuel

/-- `evalExpressions`: left to right; an error short-circuits and becomes
the singleton result list. -/
def evalExprList : Nat → List Expr → Nat → Heap → List Obj →
    Option (List Obj × Heap)
  | 0, _, _, _, _ => none
  | _+1, [], _, h, acc => some (acc, h)
  | fuel+1, e :: rest, env, h, acc =>
    match evalExpr fuel e env h with
    | none => none
    | some (v, h1) =>
      if isError v then some ([v], h1)
      else evalExprList fuel rest env h1 (acc ++ [v])
termination_by structural fuel => fuel

/-- The iteration of `evalLoopStatement` after the init statement ran in
the fresh loop scope. -/
def evalLoopIter : Nat → Option Expr → Option Stmt → List Stmt → Nat →
    Heap → Obj → Option (Obj × Heap)
  | 0, _, _, _, _, _, _ => none
  | fuel+1, condition, update, body, env, h, result =>
    match condition with
    | some c =>
      match evalExpr fuel c env h with
      | none => none
      | some (cv, h1) =>
        if isError cv then some (cv, h1)
        else if !isTruthy cv then some (result, h1)
        else evalLoopBody fuel condition update body env h1
    | none => evalLoopBody fuel condition update body env h
termination_by structural fuel => fuel

/-- The body-plus-update part of one `evalLoopStatement` iteration. -/
def evalLoopBody : Nat → Option Expr → Option Stmt → List Stmt → Nat →
    Heap → Option (Obj × Heap)
  | 0, _, _, _, _, _ => none
  | fuel+1, condition, update, body, env, h =>
    match evalBlockStmts fuel body env h .goNil with
    | none => none
    | some (result, h1) =>
      match result with
      | .returnValue v => some (.returnValue v, h1)
      | .error m => some (.error m, h1)
      | .brk => some (.null, h1)
      | r =>
        match update with
        | some u =>
          match evalStmt fuel u env h1 with
          | none => none
          | some (uv, h2) =>
            if isError uv then some (uv, h2)
            else evalLoopIter fuel condition update body env h2 r
        | none => evalLoopIter fuel condition update body env h1 r
termination_by structural fuel => fuel

/-- The iteration of `evalWhileRacingStatement`: no fresh scope, the
condition and body run in the caller's environment. -/
def evalWhileIter : Nat → Expr → List Stmt → Nat → Heap → Obj →
    Option (Obj × Heap)
  | 0, _, _, _, _, _ => none
  | fuel+1, condition, body, env, h, result =>
    match evalExpr fuel condition env h with
    | none => none
    | some (cv, h1) =>
      if isError cv then some (cv, h1)
      else if !isTruthy cv then some (result, h1)
      else
        match evalBlockStmts fuel body env h1 .goNil with
        | none => none
        | some (r, h2) =>
          match r with
          | .returnValue v => some (.returnValue v, h2)
          | .error m => some (.error m, h2)
          | .brk => some (.null, h2)
          | r' => evalWhileIter fuel condition body env h2 r'
termination_by structural fuel => fuel

/-- `applyFunction`: user functions get a fresh environment enclosed by
their captured one and have a `ReturnValue` unwrapped; builtins are
invoked directly; anything else is `not a function`. -/
def applyFunction : Nat → Obj → List Obj → Heap → Option (Obj × Heap)
  | 0, _, _, _ => none
  | fuel+1, fn, args, h =>
    match fn with
    | .func parameters body envRef =>
      match extendFunctionEnv h parameters envRef args with
      | (h1, r) =>
        match evalBlockStmts fuel body r h1 .goNil with
        | none => none
        | some (evaluated, h2) => some (unwrapReturnValue evaluated, h2)
    | .builtin name => (builtinApply name args).map (fun v => (v, h))
    | other => some (.error ("not a function: " ++ goTypeName other), h)
termination_by structural fuel => fuel

end

/-! ### Driver (from the interpreter source: `NewInterpreter`, `Execute`) -/

/-- The root environment built by `NewInterpreter` (heap index `0`). -/
def initialHeap : Heap :=
  [{ store := [("telemetry", .builtin "telemetry"),
               ("length", .builtin "length"),
               ("push", .builtin "push")],
     outer := none }]

inductive ExecOutcome where
  | failureRes (message : String)
  | successRes
deriving DecidableEq, Repr

/-- `Execute(input)`: parse, report `parsing failed` on any diagnostics,
evaluate, and report an error result's `Inspect()` form; every other
result (including the `Break`/`Continue` carriers) is success. -/
def Execute (fuel : Nat) (input : String) : Option ExecOutcome :=
  match parseSource input with
  | (prog, errs) =>
    if errs.length > 0 then some (.failureRes "parsing failed")
    else
      match evalProgram fuel prog 0 initialHeap .goNil with
      | none => none
      | some (result, _) =>
        match result with
        | .error m => some (.failureRes ("ERROR: " ++ m))
        | _ => some .successRes

/-- Parse and evaluate a source string in a fresh interpreter, returning
the final program result (the composition `Execute` evaluates). -/
def runSource (fuel : Nat) (input : String) : Option Obj :=
  match parseSource input with
  | (prog, _) =>
    match evalProgram fuel prog 0 initialHeap .goNil with
    | none => none
    | some (result, _) => some result

/-! ### Predicates and observations used by the theorems below -/

/-- Dynamic-type discriminators used to state type-dispatch conditions. -/
def Obj.isNumber : Obj → Bool
  | .number _ => true
  | _ => false

def Obj.isString : Obj → Bool
  | .strVal _ => true
  | _ => false

def Obj.isArray : Obj → Bool
  | .array _ => true
  | _ => false

/-- The scope-index chain `Get` walks: the scope itself, then its outer
chain, innermost first. -/
def envChainAux : Nat → Heap → Nat → List Nat
  | 0, _, _ => []
  | fuel+1, h, r =>
    match h[r]? with
    | none => []
    | some sc =>
      match sc.outer with
      | none => [r]
      | some r2 => r :: envChainAux fuel h r2

def envChain (h : Heap) (r : Nat) : List Nat :=
  envChainAux (r + 1) h r

/-- Heap well-formedness: every `outer` pointer refers to an earlier scope.
The interpreter only ever creates scopes with `NewEnclosedEnvironment`,
whose fresh scope sits at the end of the heap, so every heap it builds
satisfies this. -/
def ChainOk (h : Heap) : Prop :=
  ∀ (i : Nat) (sc : Scope) (r2 : Nat),
    h[i]? = some sc → sc.outer = some r2 → r2 < i

/-- Frame relation of a single evaluation step running with current
environment `env`: the heap only grows, pre-existing scopes other than
`env` are untouched, and no scope's `outer` pointer ever changes. -/
def HeapExt (h h2 : Heap) (env : Nat) : Prop :=
  h.length ≤ h2.length ∧
  (∀ s, s < h.length → s ≠ env → h2[s]? = h[s]?) ∧
  (∀ s, s < h.length → (h2[s]?).map Scope.outer = (h[s]?).map Scope.outer)

/-- Frame relation of an evaluation whose writes all land in scopes that
did not yet exist in `h`: every pre-existing scope is untouched. -/
def HeapExtOff (h h2 : Heap) : Prop :=
  h.length ≤ h2.length ∧ ∀ s, s < h.length → h2[s]? = h[s]?

/-! ## Theorems -/

/-- `ratAdd` is rational addition. -/
theorem ratAdd_eq (a b : ℚ) : ratAdd a b = a + b := by
  have ha : ((a.den : Nat) : ℚ) ≠ 0 := Nat.cast_ne_zero.mpr a.den_nz
  have hb : ((b.den : Nat) : ℚ) ≠ 0 := Nat.cast_ne_zero.mpr b.den_nz
  rw [ratAdd, Rat.divInt_eq_div]
  push_cast
  conv_rhs => rw [← Rat.num_div_den a, ← Rat.num_div_den b]
  field_simp

/-- `ratSub` is rational subtraction. -/
theorem ratSub_eq (a b : ℚ) : ratSub a b = a - b := by
  have ha : ((a.den : Nat) : ℚ) ≠ 0 := Nat.cast_ne_zero.mpr a.den_nz
  have hb : ((b.den : Nat) : ℚ) ≠ 0 := Nat.cast_ne_zero.mpr b.den_nz
  rw [ratSub, Rat.divInt_eq_div]
  push_cast
  conv_rhs => rw [← Rat.num_div_den a, ← Rat.num_div_den b]
  field_simp
  ring

/-- `ratMul` is rational multiplication. -/
theorem ratMul_eq (a b : ℚ) : ratMul a b = a * b := by
  have ha : ((a.den : Nat) : ℚ) ≠ 0 := Nat.cast_ne_zero.mpr a.den_nz
  have hb : ((b.den : Nat) : ℚ) ≠ 0 := Nat.cast_ne_zero.mpr b.den_nz
  rw [ratMul, Rat.divInt_eq_div]
  push_cast
  conv_rhs => rw [← Rat.num_div_den a, ← Rat.num_div_den b]
  field_simp

/-- `ratDiv` is rational division (for a nonzero divisor, the only way the evaluator reaches it). -/
theorem ratDiv_eq (a b : ℚ) (hb : b ≠ 0) : ratDiv a b = a / b := by
  have ha : ((a.den : Nat) : ℚ) ≠ 0 := Nat.cast_ne_zero.mpr a.den_nz
  have hbd : ((b.den : Nat) : ℚ) ≠ 0 := Nat.cast_ne_zero.mpr b.den_nz
  have hbn : (b.num : ℚ) ≠ 0 := by
    exact_mod_cast Rat.num_ne_zero.mpr hb
  rw [ratDiv, Rat.divInt_eq_div]
  push_cast
  conv_rhs => rw [← Rat.num_div_den a, ← Rat.num_div_den b]
  field_simp

/-! ### Association-list (Go map) lemmas -/

theorem storeGet_storeSet_self (st : List (String × Obj)) (n : String) (v : Obj) :
    storeGet (storeSet st n v) n = some v := by
  induction st with
  | nil => simp [storeSet, storeGet]
  | cons hd tl ih =>
    obtain ⟨m, w⟩ := hd
    by_cases hm : m == n
    · simp [storeSet, storeGet, hm]
    · simp [storeSet, storeGet, hm, ih]

theorem storeGet_storeSet_ne (st : List (String × Obj)) (n m : String) (v : Obj)
    (hnm : m ≠ n) : storeGet (storeSet st n v) m = storeGet st m := by
  induction st with
  | nil => simp [storeSet, storeGet, Ne.symm hnm]
  | cons hd tl ih =>
    obtain ⟨k, w⟩ := hd
    by_cases hk : k == n
    · have hk' : k = n := by simpa using hk
      subst hk'
      simp [storeSet, storeGet, Ne.symm hnm]
    · by_cases hkm : k == m
      · simp [storeSet, storeGet, hk, hkm]
      · simp [storeSet, storeGet, hk, hkm, ih]

/-! ### Environment lemmas -/

theorem envSet_length (h : Heap) (r : Nat) (n : String) (v : Obj) :
    (EnvSet h r n v).length = h.length := by
  unfold EnvSet
  cases h[r]? <;> simp

theorem envSet_getElem?_ne (h : Heap) (r : Nat) (n : String) (v : Obj)
    (s : Nat) (hs : s ≠ r) : (EnvSet h r n v)[s]? = h[s]? := by
  unfold EnvSet
  cases h[r]? <;> simp [List.getElem?_set_ne (Ne.symm hs)]

theorem envSet_getElem?_self (h : Heap) (r : Nat) (n : String) (v : Obj)
    (sc : Scope) (hr : h[r]? = some sc) :
    (EnvSet h r n v)[r]? = some { sc with store := storeSet sc.store n v } := by
  have hlt : r < h.length := by
    by_contra hge
    simp [List.getElem?_eq_none (Nat.le_of_not_lt hge)] at hr
  unfold EnvSet
  rw [hr]
  simp [List.getElem?_set_self, hlt]

theorem envSet_outer (h : Heap) (r : Nat) (n : String) (v : Obj) (s : Nat) :
    ((EnvSet h r n v)[s]?).map Scope.outer = (h[s]?).map Scope.outer := by
  by_cases hs : s = r
  · cases hr : h[r]? with
    | none => simp [EnvSet, hr]
    | some sc => rw [hs, envSet_getElem?_self h r n v sc hr, hr]; rfl
  · rw [envSet_getElem?_ne h r n v s hs]

/-- `EnvGetAux` answers identically for any sufficient fuel, over a
well-formed heap. -/
theorem envGetAux_fuel_inv (h : Heap) (hok : ChainOk h) (n : String) :
    ∀ fuel fuel2 r, r < fuel → r < fuel2 →
      EnvGetAux fuel h r n = EnvGetAux fuel2 h r n := by
  intro fuel
  induction fuel with
  | zero => intro fuel2 r hr _; exact absurd hr (Nat.not_lt_zero r)
  | succ fuel ih =>
    intro fuel2 r hr hr2
    obtain ⟨fuel2', rfl⟩ : ∃ k, fuel2 = k + 1 := ⟨fuel2 - 1, by omega⟩
    cases hsc : h[r]? with
    | none => simp [EnvGetAux, hsc]
    | some sc =>
      cases hv : storeGet sc.store n with
      | some v => simp [EnvGetAux, hsc, hv]
      | none =>
        cases ho : sc.outer with
        | none => simp [EnvGetAux, hsc, hv, ho]
        | some r2 =>
          have hr2r : r2 < r := hok r sc r2 hsc ho
          simp only [EnvGetAux, hsc, hv, ho]
          exact ih fuel2' r2 (by omega) (by omega)

/-- `Get` characterized as the first hit along the outer chain. -/
theorem envGetAux_eq_chain (h : Heap) (hok : ChainOk h) (n : String) :
    ∀ fuel r, r < fuel →
      EnvGetAux fuel h r n =
        (envChainAux fuel h r).findSome?
          (fun s => (h[s]?).bind (fun sc => storeGet sc.store n)) := by
  intro fuel
  induction fuel with
  | zero => intro r hr; exact absurd hr (Nat.not_lt_zero r)
  | succ fuel ih =>
    intro r hr
    cases hsc : h[r]? with
    | none => simp [EnvGetAux, envChainAux, hsc]
    | some sc =>
      cases hv : storeGet sc.store n with
      | some v =>
        cases ho : sc.outer with
        | none => simp [EnvGetAux, envChainAux, List.findSome?, hsc, hv, ho]
        | some r2 => simp [EnvGetAux, envChainAux, List.findSome?, hsc, hv, ho]
      | none =>
        cases ho : sc.outer with
        | none => simp [EnvGetAux, envChainAux, List.findSome?, hsc, hv, ho]
        | some r2 =>
          have hr2r : r2 < r := hok r sc r2 hsc ho
          have h1 : EnvGetAux (fuel+1) h r n = EnvGetAux fuel h r2 n := by
            simp [EnvGetAux, hsc, hv, ho]
          have h2 : envChainAux (fuel+1) h r = r :: envChainAux fuel h r2 := by
            simp [envChainAux, hsc, ho]
          rw [h1, h2, List.findSome?_cons]
          simp only [hsc, Option.some_bind, hv]
          exact ih r2 (by omega)

/-! ### Claim theorems -/

/-- C2: the parser produces the claimed shapes: `1 + 2 * 3` groups as
`(1 + (2 * 3))`, `a = b + c` as `(a = (b + c))`, `!-a` as `(!(-a))`, and
`a[0](1)` as `((a[0])(1))`, in each case with no parse diagnostics. -/
theorem parser_precedence_shapes :
    parseSource "1 + 2 * 3" =
      ([.exprStmt (.infixExpr (.numberLit 1) "+"
        (.infixExpr (.numberLit 2) "*" (.numberLit 3)))], []) ∧
    parseSource "a = b + c" =
      ([.exprStmt (.assign "a" (.infixExpr (.ident "b") "+" (.ident "c")))],
       []) ∧
    parseSource "!-a" =
      ([.exprStmt (.prefixExpr "!" (.prefixExpr "-" (.ident "a")))], []) ∧
    parseSource "a[0](1)" =
      ([.exprStmt (.call (.indexExpr (.ident "a") (.numberLit 0))
        [.numberLit 1])], []) :=
  ⟨rfl, rfl, rfl, rfl⟩

/-- C7: `push` returns a new array consisting of the original elements
followed by the pushed element, and the binding of the first argument is
unchanged: after `grid a = [1]` and `push(a, 2)`, `length(a)` is `1` and
`a` still evaluates to `[1]`. -/
theorem push_is_pure :
    (∀ (elements : List Obj) (element : Obj),
      builtinApply "push" [.array elements, element] =
        some (.array (elements ++ [element]))) ∧
    runSource 100 "grid a = [1]\npush(a, 2)\nlength(a)" =
      some (.number 1) ∧
    runSource 100 "grid a = [1]\npush(a, 2)\na" =
      some (.array [.number 1]) :=
  ⟨fun _ _ => rfl, rfl, rfl⟩

/-- C10: program evaluation intercepts only `ReturnValue` and `Error`
results, so a top-level `break_flag` or `continue_race` lets the `Break`
or `Continue` carrier escape as the program result, and `Execute` reports
success because only an `Error` result is reported as failure. -/
theorem break_continue_escape_program :
    (∀ fuel st env h h',
      evalStmt fuel st env h = some (Obj.brk, h') →
      evalProgram (fuel+1) [st] env h .goNil = some (Obj.brk, h')) ∧
    (∀ fuel st env h h',
      evalStmt fuel st env h = some (Obj.cont, h') →
      evalProgram (fuel+1) [st] env h .goNil = some (Obj.cont, h')) ∧
    runSource 10 "break_flag" = some .brk ∧
    Execute 10 "break_flag" = some .successRes ∧
    runSource 10 "continue_race" = some .cont ∧
    Execute 10 "continue_race" = some .successRes := by
  refine ⟨?_, ?_, rfl, rfl, rfl, rfl⟩ <;>
  · intro fuel st env h h' heq
    obtain ⟨fuel', rfl⟩ : ∃ k, fuel = k + 1 := by
      cases fuel with
      | zero => simp [evalStmt] at heq
      | succ k => exact ⟨k, rfl⟩
    show evalProgram (fuel'+1+1) [st] env h .goNil = _
    unfold evalProgram
    rw [heq]
    rfl

theorem break_continue_escape_program_witness :
    evalProgram 2 [Stmt.breakFlag] 0 [] .goNil = some (Obj.brk, []) ∧
    evalProgram 2 [Stmt.continueRace] 0 [] .goNil = some (Obj.cont, []) :=
  ⟨break_continue_escape_program.1 1 .breakFlag 0 [] [] rfl,
   break_continue_escape_program.2.1 1 .continueRace 0 [] [] rfl⟩

/-! ### Sign of truncating division and remainder (for C3) -/

theorem int_tmod_nonpos : ∀ (a b : Int), a ≤ 0 → a.tmod b ≤ 0 := by
  intro a b ha
  match a, b with
  | .ofNat m, b =>
    have hm : (Int.ofNat m) = 0 := le_antisymm ha (Int.ofNat_nonneg m)
    rw [hm, Int.zero_tmod]
  | .negSucc m, .ofNat n =>
    show -(Int.ofNat (Nat.succ m % n)) ≤ 0
    exact neg_nonpos.mpr (Int.ofNat_nonneg _)
  | .negSucc m, .negSucc n =>
    show -(Int.ofNat (Nat.succ m % Nat.succ n)) ≤ 0
    exact neg_nonpos.mpr (Int.ofNat_nonneg _)

theorem ratTrunc_nonneg (a : ℚ) (ha : 0 ≤ a) : 0 ≤ ratTrunc a := by
  unfold ratTrunc
  have hnum : 0 ≤ a.num := Rat.num_nonneg.mpr ha
  exact Int.tdiv_nonneg hnum (Int.ofNat_nonneg a.den)

theorem ratTrunc_nonpos (a : ℚ) (ha : a ≤ 0) : ratTrunc a ≤ 0 := by
  unfold ratTrunc
  have hnum : a.num ≤ 0 := Rat.num_nonpos.mpr ha
  have h1 : 0 ≤ (-a.num).tdiv a.den :=
    Int.tdiv_nonneg (by omega) (Int.ofNat_nonneg a.den)
  have h2 : (-a.num).tdiv a.den = -(a.num.tdiv a.den) := Int.neg_tdiv a.num a.den
  omega

/-- C3 counterexample: the claim promises an integer remainder for every
pair of Number operands, but at `5 % 0` the code computes
`int(5) % int(0)` and the Go runtime panics with an integer divide by
zero (modelled as `none`), producing no Number at all. -/
theorem modulo_zero_divisor_panics :
    evalNumberInfixExpression "%" 5 0 = none ∧
    runSource 10 "5 % 0" = none :=
  ⟨rfl, rfl⟩

/-- C3 (amended): for Number operands whose right operand truncates to a
nonzero integer, `%` coerces both operands to integers by truncation,
computes the remainder with the sign following the dividend, and widens
the result back to a Number; when the right operand truncates to zero the
interpreter panics instead. -/
theorem modulo_truncates_sign_follows_dividend (a b : ℚ)
    (hb : ratTrunc b ≠ 0) :
    evalNumberInfixExpression "%" a b =
      some (.number (intToRat ((ratTrunc a).tmod (ratTrunc b)))) ∧
    (0 ≤ a → 0 ≤ (ratTrunc a).tmod (ratTrunc b)) ∧
    (a ≤ 0 → (ratTrunc a).tmod (ratTrunc b) ≤ 0) := by
  refine ⟨?_, ?_, ?_⟩
  · show (if ratTrunc b = 0 then none
        else some (Obj.number (intToRat ((ratTrunc a).tmod (ratTrunc b))))) =
      some (Obj.number (intToRat ((ratTrunc a).tmod (ratTrunc b))))
    rw [if_neg hb]
  · intro ha
    exact Int.tmod_nonneg _ (ratTrunc_nonneg a ha)
  · intro ha
    exact int_tmod_nonpos _ _ (ratTrunc_nonpos a ha)

theorem modulo_truncates_sign_follows_dividend_witness :
    ratTrunc (3:ℚ) ≠ 0 ∧
    (evalNumberInfixExpression "%" (-5) 3 =
      some (.number (intToRat ((ratTrunc (-5:ℚ)).tmod (ratTrunc (3:ℚ))))) ∧
     (0 ≤ (-5:ℚ) → 0 ≤ (ratTrunc (-5:ℚ)).tmod (ratTrunc (3:ℚ))) ∧
     ((-5:ℚ) ≤ 0 → (ratTrunc (-5:ℚ)).tmod (ratTrunc (3:ℚ)) ≤ 0)) :=
  ⟨by decide, modulo_truncates_sign_follows_dividend (-5) 3 (by decide)⟩

/-- C5 counterexample: for the infix expression `1 && 2` both operands
are Numbers, so dispatch reaches the numeric handler and the result is
the error `unknown operator: &&` rather than the combined truthiness
(`true`), even though neither operand is an error. -/
theorem logical_and_on_numbers_errors :
    evalInfixExpression "&&" (.number 1) (.number 2) =
      some (.error "unknown operator: &&") ∧
    isTruthy (.number 1) = true ∧
    isTruthy (.number 2) = true ∧
    runSource 10 "1 && 2" = some (.error "unknown operator: &&") ∧
    runSource 10 "\"a\" || \"b\"" =
      some (.error "unknown operator: *main.String || *main.String") :=
  ⟨rfl, rfl, rfl, rfl, rfl⟩

/-- C5 (amended): `&&` and `||` do not short-circuit: the left operand is
evaluated, then the right operand is always evaluated as well, and an
error from the right operand is the result even when the left operand's
truthiness already determines the outcome (the first conjunct places no
condition on the left value's truthiness); when the operands are not both
Numbers and not both Strings the truthiness values are then combined,
while two Numbers or two Strings are dispatched to the numeric or string
handler, which yields an `unknown operator` error instead. -/
theorem logical_ops_evaluate_both_sides :
    (∀ fuel l operator r env h vl h1 m h2,
      evalExpr fuel l env h = some (vl, h1) →
      isError vl = false →
      evalExpr fuel r env h1 = some (.error m, h2) →
      evalExpr (fuel+1) (.infixExpr l operator r) env h =
        some (.error m, h2)) ∧
    (∀ left right : Obj,
      left.isGoNil = false → right.isGoNil = false →
      (left.isNumber && right.isNumber) = false →
      (left.isString && right.isString) = false →
      evalInfixExpression "&&" left right =
        some (.boolean (isTruthy left && isTruthy right)) ∧
      evalInfixExpression "||" left right =
        some (.boolean (isTruthy left || isTruthy right))) := by
  constructor
  · intro fuel l operator r env h vl h1 m h2 hl hvl hr
    cases vl <;> simp_all [evalExpr, isError]
  · intro left right hln hrn hnum hstr
    cases left <;> cases right <;>
      first
      | exact ⟨rfl, rfl⟩
      | simp_all [Obj.isGoNil, Obj.isNumber, Obj.isString]

theorem logical_ops_evaluate_both_sides_witness :
    evalExpr 2 (.infixExpr (.booleanLit false) "&&" (.ident "zz")) 0 [] =
      some (.error "identifier not found: zz", []) ∧
    evalInfixExpression "&&" (.boolean false) .null =
      some (.boolean false) ∧
    evalInfixExpression "||" (.boolean false) .null =
      some (.boolean false) :=
  ⟨logical_ops_evaluate_both_sides.1 1 (.booleanLit false) "&&" (.ident "zz")
      0 [] (.boolean false) [] "identifier not found: zz" [] rfl rfl rfl,
   (logical_ops_evaluate_both_sides.2 (.boolean false) .null
      rfl rfl rfl rfl).1,
   (logical_ops_evaluate_both_sides.2 (.boolean false) .null
      rfl rfl rfl rfl).2⟩

/-- C8: indexing an Array with a Number truncates the index; a truncated
index that is negative or past the last element yields `Null` without an
error, an in-range one yields that element, and every other combination
of target and index dynamic types yields the `index operator not
supported` error. -/
theorem index_operator_semantics :
    (∀ (elements : List Obj) (q : ℚ),
      (ratTrunc q < 0 ∨ (elements.length : Int) - 1 < ratTrunc q →
        evalIndexExpression (.array elements) (.number q) = some .null) ∧
      (∀ (i : Nat) (e : Obj), ratTrunc q = (i : Int) →
        elements[i]? = some e →
        evalIndexExpression (.array elements) (.number q) = some e)) ∧
    (∀ left index : Obj,
      left.isGoNil = false → index.isGoNil = false →
      (left.isArray && index.isNumber) = false →
      evalIndexExpression left index =
        some (.error ("index operator not supported: " ++ goTypeName left))) := by
  constructor
  · intro elements q
    constructor
    · intro hcond
      show some (evalArrayIndexExpression elements q) = some Obj.null
      unfold evalArrayIndexExpression
      rcases hcond with hlt | hgt
      · simp [hlt]
      · simp [hgt]
    · intro i e hq he
      have hi : i < elements.length := by
        by_contra hge
        simp [List.getElem?_eq_none (Nat.le_of_not_lt hge)] at he
      show some (evalArrayIndexExpression elements q) = some e
      unfold evalArrayIndexExpression
      rw [hq]
      have h1 : (decide ((i : Int) < 0) ||
          decide ((elements.length : Int) - 1 < (i : Int))) = false := by
        simp only [Bool.or_eq_false_iff, decide_eq_false_iff_not]
        omega
      simp [h1, List.getD, he]
  · intro left index hln hin hcomb
    cases left <;> cases index <;>
      first
      | rfl
      | simp_all [Obj.isGoNil, Obj.isArray, Obj.isNumber]

theorem index_operator_semantics_witness :
    evalIndexExpression (.array [.number 10, .number 20]) (.number 5) =
      some .null ∧
    evalIndexExpression (.array [.number 10, .number 20])
      (.number (Rat.divInt 19 10)) = some (.number 20) ∧
    evalIndexExpression .null (.number 0) =
      some (.error ("index operator not supported: " ++ goTypeName .null)) :=
  ⟨(index_operator_semantics.1 [.number 10, .number 20] 5).1
      (by right; decide),
   (index_operator_semantics.1 [.number 10, .number 20]
      (Rat.divInt 19 10)).2 1 (.number 20) (by decide) rfl,

   index_operator_semantics.2 .null (.number 0) rfl rfl rfl⟩

/-! ### Lexer scanning lemmas (for C9) -/

/-- A scan loop whose predicate holds for every remaining character runs
to the end of the input. -/
theorem scanWhileAux_all (input : List Char) (p : Char → Bool) :
    ∀ fuel pos, fuel = input.length - pos → pos ≤ input.length →
      (∀ j c, pos ≤ j → input[j]? = some c → p c = true) →
      scanWhileAux fuel input pos p = input.length := by
  intro fuel
  induction fuel with
  | zero =>
    intro pos hf hle _
    simp only [scanWhileAux]
    omega
  | succ fuel ih =>
    intro pos hf hle hall
    have hlt : pos < input.length := by omega
    obtain ⟨c, hc⟩ : ∃ c, input[pos]? = some c :=
      ⟨input[pos], List.getElem?_eq_getElem hlt⟩
    have hpc := hall pos c le_rfl hc
    simp only [scanWhileAux, hc, hpc, if_true]
    exact ih (pos+1) (by omega) (by omega)
      (fun j c' hj hc' => hall j c' (by omega) hc')

/-- `skipWhitespace` does nothing when the current character is not a
space, tab or carriage return. -/
theorem skipWhitespace_no_ws (l : Lexer) (c : Char)
    (hc : l.input[l.position]? = some c)
    (hns : (c == ' ' || c == '\t' || c == '\r') = false) :
    skipWhitespace l = l := by
  have hscan : scanWhile l.input l.position
      (fun c => c == ' ' || c == '\t' || c == '\r') = l.position := by
    have hlt : l.position < l.input.length := by
      by_contra hge
      simp [List.getElem?_eq_none (Nat.le_of_not_lt hge)] at hc
    obtain ⟨k, hk⟩ : ∃ k, l.input.length - l.position = k + 1 :=
      ⟨l.input.length - l.position - 1, by omega⟩
    unfold scanWhile
    rw [hk]
    simp [scanWhileAux, hc, hns]
  unfold skipWhitespace
  rw [hscan]
  simp

/-- `skipWhitespace` does nothing at the end of the input. -/
theorem skipWhitespace_at_end (l : Lexer)
    (h : l.input.length ≤ l.position) : skipWhitespace l = l := by
  have hscan : scanWhile l.input l.position
      (fun c => c == ' ' || c == '\t' || c == '\r') = l.position := by
    unfold scanWhile
    rw [show l.input.length - l.position = 0 by omega]
    rfl
  unfold skipWhitespace
  rw [hscan]
  simp

/-- Any `NextToken` call at or past the end of the input returns `EOF`. -/
theorem nextTokenAux_at_end (l : Lexer)
    (h : l.input.length ≤ l.position) :
    ∀ fuel, (NextTokenAux fuel l).1.type = .EOF := by
  intro fuel
  cases fuel with
  | zero => rfl
  | succ fuel =>
    simp only [NextTokenAux, skipWhitespace_at_end l h,
      List.getElem?_eq_none h]

/-- `NextToken` at an opening quote goes straight to `readString`. -/
theorem nextTokenAux_at_quote (l : Lexer) (fuel : Nat)
    (hq : l.input[l.position]? = some '"') :
    NextTokenAux (fuel+1) l = readString l := by
  have hsw : skipWhitespace l = l :=
    skipWhitespace_no_ws l '"' hq (by decide)
  simp only [NextTokenAux, hsw, hq]
  rfl

/-- `readString` with no closing quote in the rest of the input consumes
everything and produces the single diagnostic `ILLEGAL` token. -/
theorem readString_unterminated (l : Lexer)
    (hpos : l.position < l.input.length)
    (hnq : ∀ j, l.position < j → l.input[j]? ≠ some '"') :
    readString l =
      ({ type := .ILLEGAL, value := "unterminated string",
         line := l.line, column := l.column },
       { input := l.input, position := l.input.length, line := l.line,
         column := l.column + 1 + (l.input.length - (l.position + 1)) }) := by
  have hscan : scanWhile l.input (l.position + 1) (fun c => !(c == '"')) =
      l.input.length := by
    apply scanWhileAux_all l.input _ _ (l.position + 1) rfl (by omega)
    intro j c hj hc
    have hne : c ≠ '"' := by
      intro hcq
      exact hnq j (by omega) (hcq ▸ hc)
    simp [hne]
  unfold readString
  simp only [Lexer.advance, hscan]
  simp [le_refl]

/-- C9: from a lexer state positioned at a `"` with no closing `"` before
end of input, `NextToken` returns exactly one `ILLEGAL` token whose
lexeme is the diagnostic `unterminated string`, leaving the cursor at end
of input, and the next `NextToken` call returns `EOF`. -/
theorem unterminated_string_single_illegal_then_eof (l : Lexer)
    (hpos : l.position < l.input.length)
    (hq : l.input[l.position]? = some '"')
    (hnq : ∀ j, l.position < j → l.input[j]? ≠ some '"') :
    (NextToken l).1 = { type := .ILLEGAL, value := "unterminated string",
                        line := l.line, column := l.column } ∧
    (NextToken l).2.position = (NextToken l).2.input.length ∧
    (NextToken ((NextToken l).2)).1.type = .EOF := by
  have hfuel : ∃ k, l.input.length + 1 - l.position = k + 1 :=
    ⟨l.input.length - l.position, by omega⟩
  obtain ⟨k, hk⟩ := hfuel
  have hnt : NextToken l =
      ({ type := .ILLEGAL, value := "unterminated string",
         line := l.line, column := l.column },
       { input := l.input, position := l.input.length, line := l.line,
         column := l.column + 1 + (l.input.length - (l.position + 1)) }) := by
    unfold NextToken
    rw [hk, nextTokenAux_at_quote l k hq,
      readString_unterminated l hpos hnq]
  refine ⟨by rw [hnt], by rw [hnt], ?_⟩
  rw [hnt]
  exact nextTokenAux_at_end _ le_rfl _

theorem unterminated_string_single_illegal_then_eof_witness :
    (NextToken (NewLexer "\"ab")).1 =
      { type := .ILLEGAL, value := "unterminated string",
        line := 1, column := 1 } ∧
    (NextToken ((NextToken (NewLexer "\"ab")).2)).1.type = .EOF := by
  have h := unterminated_string_single_illegal_then_eof (NewLexer "\"ab")
    (by decide) (by decide)
    (by
      intro j hj hcontra
      simp only [NewLexer] at hj hcontra
      have hlen : ("\"ab".data).length = 3 := rfl
      have hjlt : j < 3 := by
        by_contra hge
        have hnone : ("\"ab".data)[j]? = none :=
          List.getElem?_eq_none (by rw [hlen]; omega)
        rw [hnone] at hcontra
        exact Option.noConfusion hcontra
      interval_cases j
      · exact absurd hcontra (by decide)
      · exact absurd hcontra (by decide))
  exact ⟨h.1, h.2.2⟩

/-- C1: `Set` writes the binding into the current (innermost) scope only,
leaving every other scope untouched, while `Get` returns the first hit
walking the chain from innermost to outermost; consequently an assignment
`x = 5` evaluated in an environment that encloses an outer scope binding
`x` creates a fresh local binding that shadows the outer `x`, and the
outer scope's binding is unchanged. -/
theorem set_writes_innermost_get_searches_outward :
    (∀ (h : Heap) (r : Nat) (sc : Scope) (n : String) (v : Obj),
      h[r]? = some sc →
      (EnvSet h r n v)[r]? = some { sc with store := storeSet sc.store n v } ∧
      storeGet (storeSet sc.store n v) n = some v ∧
      (∀ m, m ≠ n → storeGet (storeSet sc.store n v) m = storeGet sc.store m) ∧
      (∀ s, s ≠ r → (EnvSet h r n v)[s]? = h[s]?)) ∧
    (∀ (h : Heap) (r : Nat) (n : String), ChainOk h →
      EnvGet h r n = (envChain h r).findSome?
        (fun s => (h[s]?).bind (fun sc => storeGet sc.store n))) ∧
    (∀ (h : Heap) (r r2 : Nat) (sc : Scope) (n : String) (v : Obj) (q : ℚ),
      h[r]? = some sc → sc.outer = some r2 → r2 ≠ r →
      (∀ fuel, evalExpr (fuel+2) (.assign n (.numberLit q)) r h =
        some (.number q, EnvSet h r n (.number q))) ∧
      EnvGet (EnvSet h r n v) r n = some v ∧
      (EnvSet h r n v)[r2]? = h[r2]?) := by
  refine ⟨?_, ?_, ?_⟩
  · intro h r sc n v hsc
    exact ⟨envSet_getElem?_self h r n v sc hsc,
      storeGet_storeSet_self sc.store n v,
      fun m hm => storeGet_storeSet_ne sc.store n m v hm,
      fun s hs => envSet_getElem?_ne h r n v s hs⟩
  · intro h r n hok
    exact envGetAux_eq_chain h hok n (r+1) r (Nat.lt_succ_self r)
  · intro h r r2 sc n v q hsc houter hne
    refine ⟨fun fuel => rfl, ?_, envSet_getElem?_ne h r n v r2 hne⟩
    show EnvGetAux (r+1) (EnvSet h r n v) r n = some v
    simp only [EnvGetAux, envSet_getElem?_self h r n v sc hsc,
      storeGet_storeSet_self]

theorem set_writes_innermost_get_searches_outward_witness :
    (EnvSet [⟨[("x", Obj.number 1)], none⟩, ⟨[], some 0⟩] 1 "x"
      (Obj.number 5))[1]? =
      some ⟨[("x", Obj.number 5)], some 0⟩ ∧
    EnvGet [⟨[("x", Obj.number 1)], none⟩, ⟨[], some 0⟩] 1 "x" =
      some (Obj.number 1) ∧
    evalExpr 2 (.assign "x" (.numberLit 5)) 1
      [⟨[("x", Obj.number 1)], none⟩, ⟨[], some 0⟩] =
      some (.number 5,
        EnvSet [⟨[("x", Obj.number 1)], none⟩, ⟨[], some 0⟩] 1 "x"
          (Obj.number 5)) ∧
    EnvGet (EnvSet [⟨[("x", Obj.number 1)], none⟩, ⟨[], some 0⟩] 1 "x"
      (Obj.number 5)) 1 "x" = some (Obj.number 5) ∧
    (EnvSet [⟨[("x", Obj.number 1)], none⟩, ⟨[], some 0⟩] 1 "x"
      (Obj.number 5))[0]? =
      [(⟨[("x", Obj.number 1)], none⟩ : Scope), ⟨[], some 0⟩][0]? := by
  have hok : ChainOk [⟨[("x", Obj.number 1)], none⟩, ⟨[], some 0⟩] := by
    intro i sc r2 hi ho
    have hilt : i < 2 := by
      by_contra hge
      have hnone :
          ([⟨[("x", Obj.number 1)], none⟩, ⟨[], some 0⟩] : Heap)[i]? = none :=
        List.getElem?_eq_none (by simp; omega)
      rw [hnone] at hi
      exact Option.noConfusion hi
    interval_cases i
    · cases hi
      exact Option.noConfusion ho
    · cases hi
      cases ho
      exact Nat.zero_lt_one
  have h1 := (set_writes_innermost_get_searches_outward.1
    [⟨[("x", Obj.number 1)], none⟩, ⟨[], some 0⟩] 1 ⟨[], some 0⟩ "x"
    (Obj.number 5) rfl).1
  have h2 := set_writes_innermost_get_searches_outward.2.1
    [⟨[("x", Obj.number 1)], none⟩, ⟨[], some 0⟩] 1 "x" hok
  have h3 := set_writes_innermost_get_searches_outward.2.2
    [⟨[("x", Obj.number 1)], none⟩, ⟨[], some 0⟩] 1 0 ⟨[], some 0⟩ "x"
    (Obj.number 5) 5 rfl rfl (by omega)
  exact ⟨h1, by rw [h2]; rfl, h3.1 0, h3.2.1, h3.2.2⟩

/-! ### Parameter binding lemmas (for C4) -/

theorem bindParams_getElem?_ne :
    ∀ (ps : List String) (as' : List Obj) (h : Heap) (r s : Nat),
      s ≠ r → (bindParams h r ps as')[s]? = h[s]? := by
  intro ps
  induction ps with
  | nil => intro as' h r s _; rfl
  | cons p ps ih =>
    intro as' h r s hs
    cases as' with
    | nil => rfl
    | cons a as' =>
      show (bindParams (EnvSet h r p a) r ps as')[s]? = h[s]?
      rw [ih as' (EnvSet h r p a) r s hs, envSet_getElem?_ne h r p a s hs]

theorem bindParams_take :
    ∀ (ps : List String) (as' : List Obj) (h : Heap) (r : Nat),
      bindParams h r ps as' = bindParams h r ps (as'.take ps.length) := by
  intro ps
  induction ps with
  | nil => intro as' h r; cases as' <;> rfl
  | cons p ps ih =>
    intro as' h r
    cases as' with
    | nil => rfl
    | cons a as' =>
      show bindParams (EnvSet h r p a) r ps as' = _
      rw [ih as' (EnvSet h r p a) r]
      rfl

/-- Binding parameters never touches the store entries of names that are
not among the remaining parameters. -/
theorem bindParams_storeGet_not_mem :
    ∀ (ps : List String) (as' : List Obj) (h : Heap) (r : Nat) (sc : Scope)
      (n : String), n ∉ ps → h[r]? = some sc →
      ∃ sc2, (bindParams h r ps as')[r]? = some sc2 ∧
        sc2.outer = sc.outer ∧ storeGet sc2.store n = storeGet sc.store n := by
  intro ps
  induction ps with
  | nil =>
    intro as' h r sc n _ hr
    exact ⟨sc, hr, rfl, rfl⟩
  | cons p ps ih =>
    intro as' h r sc n hn hr
    cases as' with
    | nil => exact ⟨sc, hr, rfl, rfl⟩
    | cons a as' =>
      have hr' : (EnvSet h r p a)[r]? =
          some { sc with store := storeSet sc.store p a } :=
        envSet_getElem?_self h r p a sc hr
      obtain ⟨sc2, h1, h2, h3⟩ := ih as' (EnvSet h r p a) r
        { sc with store := storeSet sc.store p a } n
        (fun hmem => hn (List.mem_cons_of_mem p hmem)) hr'
      refine ⟨sc2, h1, h2, ?_⟩
      rw [h3]
      exact storeGet_storeSet_ne sc.store p n a
        (fun he => hn (he ▸ List.mem_cons_self p ps))

/-- Positional parameter binding: for distinct parameter names, the entry
for the `i`-th parameter in the bound scope is exactly the `i`-th
argument when one exists, and the scope's previous entry otherwise. -/
theorem bindParams_lookup :
    ∀ (ps : List String) (as' : List Obj) (h : Heap) (r : Nat) (sc : Scope)
      (i : Nat) (p : String), ps.Nodup → h[r]? = some sc →
      ps[i]? = some p →
      ∃ sc2, (bindParams h r ps as')[r]? = some sc2 ∧
        sc2.outer = sc.outer ∧
        storeGet sc2.store p =
          (match as'[i]? with
           | some a => some a
           | none => storeGet sc.store p) := by
  intro ps
  induction ps with
  | nil => intro as' h r sc i p _ _ hp; simp at hp
  | cons p0 ps ih =>
    intro as' h r sc i p hnd hr hp
    have hnd0 : p0 ∉ ps := by simp [List.nodup_cons] at hnd; exact hnd.1
    have hndtl : ps.Nodup := by simp [List.nodup_cons] at hnd; exact hnd.2
    cases as' with
    | nil =>
      refine ⟨sc, hr, rfl, ?_⟩
      simp
    | cons a as' =>
      have hr' : (EnvSet h r p0 a)[r]? =
          some { sc with store := storeSet sc.store p0 a } :=
        envSet_getElem?_self h r p0 a sc hr
      cases i with
      | zero =>
        have hp0 : p0 = p := by simpa using hp
        subst hp0
        obtain ⟨sc2, h1, h2, h3⟩ := bindParams_storeGet_not_mem ps as'
          (EnvSet h r p0 a) r { sc with store := storeSet sc.store p0 a } p0
          hnd0 hr'
        refine ⟨sc2, h1, h2, ?_⟩
        rw [h3]
        simpa using storeGet_storeSet_self sc.store p0 a
      | succ j =>
        have hp' : ps[j]? = some p := by simpa using hp
        obtain ⟨sc2, h1, h2, h3⟩ := ih as' (EnvSet h r p0 a) r
          { sc with store := storeSet sc.store p0 a } j p hndtl hr' hp'
        refine ⟨sc2, h1, h2, ?_⟩
        rw [h3]
        have hpne : p ≠ p0 := by
          intro he
          exact hnd0 (he ▸ (List.getElem?_mem hp' : p ∈ ps))
        simp only [List.getElem?_cons_succ]
        cases has : as'[j]? with
        | some a2 => simp [has]
        | none =>
          simp only [has]
          exact storeGet_storeSet_ne sc.store p0 p a hpne

/-- Binding parameters leaves the scope present with its `outer` pointer
unchanged. -/
theorem bindParams_scope :
    ∀ (ps : List String) (as' : List Obj) (h : Heap) (r : Nat) (sc : Scope),
      h[r]? = some sc →
      ∃ st, (bindParams h r ps as')[r]? = some ⟨st, sc.outer⟩ := by
  intro ps
  induction ps with
  | nil =>
    intro as' h r sc hr
    exact ⟨sc.store, by show h[r]? = _; rw [hr]⟩
  | cons p ps ih =>
    intro as' h r sc hr
    cases as' with
    | nil => exact ⟨sc.store, by show h[r]? = _; rw [hr]⟩
    | cons a as' =>
      have hr' : (EnvSet h r p a)[r]? =
          some { store := storeSet sc.store p a, outer := sc.outer } :=
        envSet_getElem?_self h r p a sc hr
      exact ih as' (EnvSet h r p a) r
        { store := storeSet sc.store p a, outer := sc.outer } hr'

/-- Scope heaps stay well-formed under `Set` and under extending with a
fresh enclosed scope. -/
theorem chainOk_envSet (h : Heap) (hok : ChainOk h) (r : Nat) (n : String)
    (v : Obj) : ChainOk (EnvSet h r n v) := by
  intro i sc r2 hi ho
  by_cases hir : i = r
  · subst hir
    cases hr : h[i]? with
    | none =>
      unfold EnvSet at hi
      rw [hr] at hi
      exact hok i sc r2 (hr ▸ hi) ho
    | some sc0 =>
      rw [envSet_getElem?_self h i n v sc0 hr] at hi
      cases hi
      exact hok i sc0 r2 hr ho
  · rw [envSet_getElem?_ne h r n v i hir] at hi
    exact hok i sc r2 hi ho

theorem chainOk_extend (h : Heap) (hok : ChainOk h) (params : List String)
    (envRef : Nat) (args : List Obj) (henv : envRef < h.length) :
    ChainOk (extendFunctionEnv h params envRef args).1 := by
  have hbase : ChainOk (h ++ [{ store := [], outer := some envRef }]) := by
    intro i sc r2 hi ho
    rcases Nat.lt_or_ge i h.length with hlt | hge
    · rw [List.getElem?_append, if_pos hlt] at hi
      exact hok i sc r2 hi ho
    · have hieq : i = h.length := by
        by_contra hne
        have : h.length + 1 ≤ i := by
          simp at hge
          omega
        rw [List.getElem?_eq_none (by simp; omega)] at hi
        exact Option.noConfusion hi
      subst hieq
      rw [List.getElem?_append_right hge] at hi
      simp at hi
      rw [← hi] at ho
      cases ho
      omega
  show ChainOk (bindParams (h ++ [{ store := [], outer := some envRef }])
    h.length params args)
  intro i sc r2 hi ho
  by_cases hir : i = h.length
  · subst hir
    have hr0 : (h ++ [{ store := [], outer := some envRef }])[h.length]? =
        some { store := [], outer := some envRef } := by
      rw [List.getElem?_append_right (le_refl _)]
      simp
    obtain ⟨st, h1⟩ := bindParams_scope params args
      (h ++ [{ store := [], outer := some envRef }]) h.length
      { store := [], outer := some envRef } hr0
    rw [h1] at hi
    cases hi
    cases ho
    exact henv
  · rw [bindParams_getElem?_ne params args _ h.length i hir] at hi
    exact hbase i sc r2 hi ho

theorem append_fresh_getElem? (h : Heap) (sc : Scope) :
    (h ++ [sc])[h.length]? = some sc := by
  rw [List.getElem?_append_right (le_refl _)]
  simp

/-- Two heaps that agree on all scopes below `h.length` give identical
lookups from any scope index below `h.length`. -/
theorem envGetAux_congr (h h2 : Heap) (n : String) (hok : ChainOk h)
    (hagree : ∀ s, s < h.length → h2[s]? = h[s]?) :
    ∀ fuel r, r < h.length → EnvGetAux fuel h2 r n = EnvGetAux fuel h r n := by
  intro fuel
  induction fuel with
  | zero => intro r _; rfl
  | succ fuel ih =>
    intro r hr
    cases hsc : h[r]? with
    | none => simp [EnvGetAux, hagree r hr, hsc]
    | some sc =>
      cases hv : storeGet sc.store n with
      | some v => simp [EnvGetAux, hagree r hr, hsc, hv]
      | none =>
        cases ho : sc.outer with
        | none => simp [EnvGetAux, hagree r hr, hsc, hv, ho]
        | some r2 =>
          have hr2 := hok r sc r2 hsc ho
          simp only [EnvGetAux, hagree r hr, hsc, hv, ho]
          exact ih r2 (by omega)

/-- C4: applying a user-defined function builds a fresh environment
enclosed by the function's captured environment and binds each parameter
positionally to the corresponding argument (`storeGet ... = args[i]?`:
extra arguments are silently ignored and parameters without a matching
argument stay unbound); reading such an unbound parameter yields the
`identifier not found` error; the body is evaluated as a block and a
`ReturnValue` result is unwrapped. -/
theorem apply_function_binds_positionally :
    (∀ (h : Heap) (params : List String) (envRef : Nat) (args : List Obj),
      (extendFunctionEnv h params envRef args).2 = h.length ∧
      ∃ st, (extendFunctionEnv h params envRef args).1[h.length]? =
        some ⟨st, some envRef⟩) ∧
    (∀ (h : Heap) (params : List String) (envRef : Nat) (args : List Obj)
      (i : Nat) (p : String), params.Nodup → params[i]? = some p →
      ∃ sc2, (extendFunctionEnv h params envRef args).1[h.length]? =
          some sc2 ∧
        sc2.outer = some envRef ∧ storeGet sc2.store p = args[i]?) ∧
    (∀ (h : Heap) (params : List String) (envRef : Nat) (args : List Obj),
      extendFunctionEnv h params envRef args =
        extendFunctionEnv h params envRef (args.take params.length)) ∧
    (∀ (h : Heap) (params : List String) (envRef : Nat) (args : List Obj)
      (i : Nat) (p : String) (fuel : Nat),
      params.Nodup → params[i]? = some p → args.length ≤ i →
      ChainOk h → envRef < h.length → EnvGet h envRef p = none →
      evalExpr (fuel+1) (.ident p) (extendFunctionEnv h params envRef args).2
        (extendFunctionEnv h params envRef args).1 =
        some (.error ("identifier not found: " ++ p),
          (extendFunctionEnv h params envRef args).1)) ∧
    (∀ (fuel : Nat) (params : List String) (body : List Stmt) (envRef : Nat)
      (args : List Obj) (h : Heap) (res : Obj) (h2 : Heap),
      evalBlockStmts fuel body (extendFunctionEnv h params envRef args).2
        (extendFunctionEnv h params envRef args).1 .goNil = some (res, h2) →
      applyFunction (fuel+1) (.func params body envRef) args h =
        some (unwrapReturnValue res, h2)) ∧
    (∀ v : Obj, unwrapReturnValue (.returnValue v) = v) ∧
    runSource 100 "pace f(a, b){return_pit b}\nf(1)" =
      some (.error "identifier not found: b") ∧
    runSource 100 "pace g(a){return_pit a}\ng(7, 8, 9)" = some (.number 7) := by
  have hfreshAt : ∀ (h : Heap) (envRef : Nat),
      (h ++ [{ store := [], outer := some envRef }])[h.length]? =
        some { store := [], outer := some envRef } :=
    fun h envRef => append_fresh_getElem? h _
  refine ⟨?_, ?_, ?_, ?_, ?_, fun v => rfl, rfl, rfl⟩
  · intro h params envRef args
    refine ⟨rfl, ?_⟩
    obtain ⟨st, hst⟩ := bindParams_scope params args
      (h ++ [{ store := [], outer := some envRef }]) h.length
      { store := [], outer := some envRef } (hfreshAt h envRef)
    exact ⟨st, hst⟩
  · intro h params envRef args i p hnd hp
    obtain ⟨sc2, h1, h2, h3⟩ := bindParams_lookup params args
      (h ++ [{ store := [], outer := some envRef }]) h.length
      { store := [], outer := some envRef } i p hnd (hfreshAt h envRef) hp
    refine ⟨sc2, h1, h2, ?_⟩
    rw [h3]
    cases has : args[i]? with
    | some a => simp [has]
    | none => simp [has, storeGet]
  · intro h params envRef args
    show (bindParams (h ++ [{ store := [], outer := some envRef }])
        h.length params args, h.length) = _
    rw [bindParams_take params args]
    rfl
  · intro h params envRef args i p fuel hnd hp hlen hok henv hget
    obtain ⟨sc2, h1, h2, h3⟩ := bindParams_lookup params args
      (h ++ [{ store := [], outer := some envRef }]) h.length
      { store := [], outer := some envRef } i p hnd (hfreshAt h envRef) hp
    have hnone : storeGet sc2.store p = none := by
      rw [h3, List.getElem?_eq_none hlen]
      rfl
    have h1' : (extendFunctionEnv h params envRef args).1[h.length]? =
        some sc2 := h1
    have hok2 : ChainOk (extendFunctionEnv h params envRef args).1 :=
      chainOk_extend h hok params envRef args henv
    have hagree : ∀ s, s < h.length →
        (extendFunctionEnv h params envRef args).1[s]? = h[s]? := by
      intro s hs
      show (bindParams (h ++ [{ store := [], outer := some envRef }])
        h.length params args)[s]? = h[s]?
      rw [bindParams_getElem?_ne params args _ h.length s (by omega),
        List.getElem?_append, if_pos hs]
    have hEG : EnvGet (extendFunctionEnv h params envRef args).1 h.length p =
        none := by
      unfold EnvGet
      simp only [EnvGetAux, h1', hnone, h2]
      rw [envGetAux_fuel_inv _ hok2 p h.length (envRef+1) envRef
        (by omega) (by omega)]
      rw [envGetAux_congr h _ p hok hagree (envRef+1) envRef henv]
      exact hget
    have hEG2 : EnvGet (extendFunctionEnv h params envRef args).1
        (extendFunctionEnv h params envRef args).2 p = none := hEG
    simp [evalExpr, hEG2]
  · intro fuel params body envRef args h res h2 heq
    have heq' : evalBlockStmts fuel body h.length
        (bindParams (h ++ [{ store := [], outer := some envRef }]) h.length
          params args) .goNil = some (res, h2) := heq
    simp [applyFunction, extendFunctionEnv, NewEnclosedEnvironment, heq']

theorem apply_function_binds_positionally_witness :
    (∃ sc2,
      (extendFunctionEnv initialHeap ["a", "b"] 0 [.number 1]).1[1]? =
        some sc2 ∧
      sc2.outer = some 0 ∧
      storeGet sc2.store "b" = ([Obj.number 1] : List Obj)[1]?) ∧
    evalExpr 1 (.ident "b")
      (extendFunctionEnv initialHeap ["a", "b"] 0 [.number 1]).2
      (extendFunctionEnv initialHeap ["a", "b"] 0 [.number 1]).1 =
      some (.error "identifier not found: b",
        (extendFunctionEnv initialHeap ["a", "b"] 0 [.number 1]).1) := by
  have hok : ChainOk initialHeap := by
    intro i sc r2 hi ho
    have hilt : i < 1 := by
      by_contra hge
      rw [List.getElem?_eq_none (by simp [initialHeap]; omega)] at hi
      exact Option.noConfusion hi
    interval_cases i
    rw [show (initialHeap[0]? : Option Scope) =
      some ⟨[("telemetry", .builtin "telemetry"),
             ("length", .builtin "length"),
             ("push", .builtin "push")], none⟩ from rfl] at hi
    cases hi
    exact Option.noConfusion ho
  exact ⟨apply_function_binds_positionally.2.1 initialHeap ["a", "b"] 0
      [.number 1] 1 "b" (by decide) rfl,
    apply_function_binds_positionally.2.2.2.1 initialHeap ["a", "b"] 0
      [.number 1] 1 "b" 0 (by decide) rfl (by decide) hok
      (by decide) rfl⟩

/-! ### Heap frame lemmas (for C6) -/

theorem heapExt_refl (h : Heap) (env : Nat) : HeapExt h h env :=
  ⟨le_refl _, fun _ _ _ => rfl, fun _ _ => rfl⟩

theorem heapExtOff_refl (h : Heap) : HeapExtOff h h :=
  ⟨le_refl _, fun _ _ => rfl⟩

theorem heapExt_trans {h h1 h2 : Heap} {env : Nat}
    (ha : HeapExt h h1 env) (hb : HeapExt h1 h2 env) : HeapExt h h2 env := by
  obtain ⟨hl1, he1, ho1⟩ := ha
  obtain ⟨hl2, he2, ho2⟩ := hb
  refine ⟨le_trans hl1 hl2, ?_, ?_⟩
  · intro s hs hne
    rw [he2 s (by omega) hne, he1 s hs hne]
  · intro s hs
    rw [ho2 s (by omega), ho1 s hs]

theorem heapExtOff_heapExt {h h2 : Heap} (env : Nat)
    (hx : HeapExtOff h h2) : HeapExt h h2 env := by
  obtain ⟨hl, he⟩ := hx
  exact ⟨hl, fun s hs _ => he s hs, fun s hs => by rw [he s hs]⟩

theorem heapExtOff_trans {h h1 h2 : Heap}
    (ha : HeapExtOff h h1) (hb : HeapExtOff h1 h2) : HeapExtOff h h2 := by
  obtain ⟨hl1, he1⟩ := ha
  obtain ⟨hl2, he2⟩ := hb
  exact ⟨le_trans hl1 hl2, fun s hs => by rw [he2 s (by omega), he1 s hs]⟩

/-- An evaluation step whose environment lies outside the original heap
preserves every original scope. -/
theorem heapExtOff_heapExt_trans {h h3 h4 : Heap} {env : Nat}
    (ha : HeapExtOff h h3) (hb : HeapExt h3 h4 env)
    (henv : h.length ≤ env) : HeapExtOff h h4 := by
  obtain ⟨hl1, he1⟩ := ha
  obtain ⟨hl2, he2, _⟩ := hb
  refine ⟨le_trans hl1 hl2, fun s hs => ?_⟩
  rw [he2 s (by omega) (by omega), he1 s hs]

theorem heapExtOff_append (h : Heap) (l : Heap) : HeapExtOff h (h ++ l) :=
  ⟨by simp, fun s hs => by rw [List.getElem?_append, if_pos hs]⟩

theorem envSet_heapExt (h : Heap) (env : Nat) (n : String) (v : Obj) :
    HeapExt h (EnvSet h env n v) env :=
  ⟨le_of_eq (envSet_length h env n v).symm,
   fun s _ hne => envSet_getElem?_ne h env n v s hne,
   fun s _ => envSet_outer h env n v s⟩

theorem bindParams_length :
    ∀ (ps : List String) (as' : List Obj) (h : Heap) (r : Nat),
      (bindParams h r ps as').length = h.length := by
  intro ps
  induction ps with
  | nil => intro as' h r; rfl
  | cons p ps ih =>
    intro as' h r
    cases as' with
    | nil => rfl
    | cons a as' =>
      show (bindParams (EnvSet h r p a) r ps as').length = h.length
      rw [ih as' (EnvSet h r p a) r, envSet_length]

/-- The frame property of the whole evaluator: an evaluation step running
with current environment `env` only ever writes into scope `env` or into
scopes created during the step; every other pre-existing scope, and every
pre-existing `outer` pointer, is unchanged.  `applyFunction` binds and
evaluates in a freshly created scope, so it preserves every pre-existing
scope outright. -/
theorem evalFrame : ∀ fuel : Nat,
    (∀ st env h r h2, evalStmt fuel st env h = some (r, h2) →
      HeapExt h h2 env) ∧
    (∀ e env h r h2, evalExpr fuel e env h = some (r, h2) →
      HeapExt h h2 env) ∧
    (∀ sts env h acc r h2, evalProgram fuel sts env h acc = some (r, h2) →
      HeapExt h h2 env) ∧
    (∀ sts env h acc r h2, evalBlockStmts fuel sts env h acc = some (r, h2) →
      HeapExt h h2 env) ∧
    (∀ es env h acc r h2, evalExprList fuel es env h acc = some (r, h2) →
      HeapExt h h2 env) ∧
    (∀ c u b env h acc r h2, evalLoopIter fuel c u b env h acc = some (r, h2) →
      HeapExt h h2 env) ∧
    (∀ c u b env h r h2, evalLoopBody fuel c u b env h = some (r, h2) →
      HeapExt h h2 env) ∧
    (∀ c b env h acc r h2, evalWhileIter fuel c b env h acc = some (r, h2) →
      HeapExt h h2 env) ∧
    (∀ fn args h r h2, applyFunction fuel fn args h = some (r, h2) →
      HeapExtOff h h2) := by
  intro fuel
  induction fuel with
  | zero =>
    exact ⟨fun _ _ _ _ _ heq => Option.noConfusion heq,
           fun _ _ _ _ _ heq => Option.noConfusion heq,
           fun _ _ _ _ _ _ heq => Option.noConfusion heq,
           fun _ _ _ _ _ _ heq => Option.noConfusion heq,
           fun _ _ _ _ _ _ heq => Option.noConfusion heq,
           fun _ _ _ _ _ _ _ _ heq => Option.noConfusion heq,
           fun _ _ _ _ _ _ _ heq => Option.noConfusion heq,
           fun _ _ _ _ _ _ _ heq => Option.noConfusion heq,
           fun _ _ _ _ _ heq => Option.noConfusion heq⟩
  | succ fuel ih =>
    obtain ⟨ihS, ihE, ihP, ihB, ihL, ihLI, ihLB, ihW, ihA⟩ := ih
    refine ⟨?_, ?_, ?_, ?_, ?_, ?_, ?_, ?_, ?_⟩
    · -- evalStmt
      intro st env h r h2 heq
      cases st with
      | grid name value =>
        simp only [evalStmt] at heq
        split at heq
        · exact Option.noConfusion heq
        · rename_i v h1 hv
          split at heq
          · simp at heq
            obtain ⟨rfl, rfl⟩ := heq
            exact ihE _ _ _ _ _ hv
          · simp at heq
            obtain ⟨rfl, rfl⟩ := heq
            exact heapExt_trans (ihE _ _ _ _ _ hv) (envSet_heapExt _ _ _ _)
      | pace name params body =>
        simp only [evalStmt] at heq
        simp at heq
        obtain ⟨rfl, rfl⟩ := heq
        exact envSet_heapExt _ _ _ _
      | circuit cond cons alt =>
        simp only [evalStmt] at heq
        split at heq
        · exact Option.noConfusion heq
        · rename_i c h1 hc
          split at heq
          · simp at heq
            obtain ⟨rfl, rfl⟩ := heq
            exact ihE _ _ _ _ _ hc
          · split at heq
            · exact heapExt_trans (ihE _ _ _ _ _ hc) (ihB _ _ _ _ _ _ heq)
            · split at heq
              · exact heapExt_trans (ihE _ _ _ _ _ hc) (ihB _ _ _ _ _ _ heq)
              · simp at heq
                obtain ⟨rfl, rfl⟩ := heq
                exact ihE _ _ _ _ _ hc
      | loop init cond upd body =>
        cases init with
        | some st0 =>
          simp only [evalStmt, NewEnclosedEnvironment] at heq
          split at heq
          · exact Option.noConfusion heq
          · rename_i r0 h3 hi
            split at heq
            · simp at heq
              obtain ⟨rfl, rfl⟩ := heq
              exact heapExtOff_heapExt env (heapExtOff_heapExt_trans
                (heapExtOff_append h _) (ihS _ _ _ _ _ hi) le_rfl)
            · exact heapExtOff_heapExt env (heapExtOff_heapExt_trans
                (heapExtOff_heapExt_trans (heapExtOff_append h _)
                  (ihS _ _ _ _ _ hi) le_rfl)
                (ihLI _ _ _ _ _ _ _ _ heq) le_rfl)
        | none =>
          simp only [evalStmt, NewEnclosedEnvironment] at heq
          exact heapExtOff_heapExt env (heapExtOff_heapExt_trans
            (heapExtOff_append h _) (ihLI _ _ _ _ _ _ _ _ heq) le_rfl)
      | whileRacing cond body =>
        simp only [evalStmt] at heq
        exact ihW _ _ _ _ _ _ _ heq
      | returnPit value =>
        cases value with
        | none =>
          simp only [evalStmt] at heq
          simp at heq
          obtain ⟨rfl, rfl⟩ := heq
          exact heapExt_refl _ _
        | some e =>
          simp only [evalStmt] at heq
          split at heq
          · exact Option.noConfusion heq
          · rename_i v h1 hv
            split at heq
            · simp at heq
              obtain ⟨rfl, rfl⟩ := heq
              exact ihE _ _ _ _ _ hv
            · simp at heq
              obtain ⟨rfl, rfl⟩ := heq
              exact ihE _ _ _ _ _ hv
      | breakFlag =>
        simp only [evalStmt] at heq
        simp at heq
        obtain ⟨rfl, rfl⟩ := heq
        exact heapExt_refl _ _
      | continueRace =>
        simp only [evalStmt] at heq
        simp at heq
        obtain ⟨rfl, rfl⟩ := heq
        exact heapExt_refl _ _
      | block stmts =>
        simp only [evalStmt] at heq
        exact ihB _ _ _ _ _ _ heq
      | exprStmt e =>
        simp only [evalStmt] at heq
        exact ihE _ _ _ _ _ heq
    · -- evalExpr
      intro e env h r h2 heq
      cases e with
      | numberLit v =>
        simp only [evalExpr] at heq
        simp at heq
        obtain ⟨rfl, rfl⟩ := heq
        exact heapExt_refl _ _
      | stringLit s =>
        simp only [evalExpr] at heq
        simp at heq
        obtain ⟨rfl, rfl⟩ := heq
        exact heapExt_refl _ _
      | booleanLit b =>
        simp only [evalExpr] at heq
        simp at heq
        obtain ⟨rfl, rfl⟩ := heq
        exact heapExt_refl _ _
      | ident name =>
        simp only [evalExpr] at heq
        split at heq <;>
        · simp at heq
          obtain ⟨rfl, rfl⟩ := heq
          exact heapExt_refl _ _
      | formationLit elements =>
        simp only [evalExpr] at heq
        split at heq
        · exact Option.noConfusion heq
        · rename_i objs h1 hl
          split at heq
          · split at heq
            · simp at heq
              obtain ⟨rfl, rfl⟩ := heq
              exact ihL _ _ _ _ _ _ hl
            · simp at heq
              obtain ⟨rfl, rfl⟩ := heq
              exact ihL _ _ _ _ _ _ hl
          · simp at heq
            obtain ⟨rfl, rfl⟩ := heq
            exact ihL _ _ _ _ _ _ hl
      | indexExpr left index =>
        simp only [evalExpr] at heq
        split at heq
        · exact Option.noConfusion heq
        · rename_i l h1 hle
          split at heq
          · simp at heq
            obtain ⟨rfl, rfl⟩ := heq
            exact ihE _ _ _ _ _ hle
          · split at heq
            · exact Option.noConfusion heq
            · rename_i i h3 hie
              split at heq
              · simp at heq
                obtain ⟨rfl, rfl⟩ := heq
                exact heapExt_trans (ihE _ _ _ _ _ hle) (ihE _ _ _ _ _ hie)
              · cases hv : evalIndexExpression l i with
                | none =>
                  rw [hv] at heq
                  exact Option.noConfusion heq
                | some v =>
                  rw [hv] at heq
                  simp at heq
                  obtain ⟨rfl, rfl⟩ := heq
                  exact heapExt_trans (ihE _ _ _ _ _ hle) (ihE _ _ _ _ _ hie)
      | prefixExpr operator right =>
        simp only [evalExpr] at heq
        split at heq
        · exact Option.noConfusion heq
        · rename_i v h1 hv
          split at heq
          · simp at heq
            obtain ⟨rfl, rfl⟩ := heq
            exact ihE _ _ _ _ _ hv
          · cases hp : evalPrefixExpression operator v with
            | none =>
              rw [hp] at heq
              exact Option.noConfusion heq
            | some w =>
              rw [hp] at heq
              simp at heq
              obtain ⟨rfl, rfl⟩ := heq
              exact ihE _ _ _ _ _ hv
      | infixExpr left operator right =>
        simp only [evalExpr] at heq
        split at heq
        · exact Option.noConfusion heq
        · rename_i l h1 hle
          split at heq
          · simp at heq
            obtain ⟨rfl, rfl⟩ := heq
            exact ihE _ _ _ _ _ hle
          · split at heq
            · exact Option.noConfusion heq
            · rename_i rv h3 hre
              split at heq
              · simp at heq
                obtain ⟨rfl, rfl⟩ := heq
                exact heapExt_trans (ihE _ _ _ _ _ hle) (ihE _ _ _ _ _ hre)
              · cases hv : evalInfixExpression operator l rv with
                | none =>
                  rw [hv] at heq
                  exact Option.noConfusion heq
                | some v =>
                  rw [hv] at heq
                  simp at heq
                  obtain ⟨rfl, rfl⟩ := heq
                  exact heapExt_trans (ihE _ _ _ _ _ hle) (ihE _ _ _ _ _ hre)
      | call function arguments =>
        simp only [evalExpr] at heq
        split at heq
        · exact Option.noConfusion heq
        · rename_i fn h1 hfn
          split at heq
          · simp at heq
            obtain ⟨rfl, rfl⟩ := heq
            exact ihE _ _ _ _ _ hfn
          · split at heq
            · exact Option.noConfusion heq
            · rename_i args h3 hargs
              split at heq
              · split at heq
                · simp at heq
                  obtain ⟨rfl, rfl⟩ := heq
                  exact heapExt_trans (ihE _ _ _ _ _ hfn)
                    (ihL _ _ _ _ _ _ hargs)
                · exact heapExt_trans
                    (heapExt_trans (ihE _ _ _ _ _ hfn)
                      (ihL _ _ _ _ _ _ hargs))
                    (heapExtOff_heapExt env (ihA _ _ _ _ _ heq))
              · exact heapExt_trans
                  (heapExt_trans (ihE _ _ _ _ _ hfn)
                    (ihL _ _ _ _ _ _ hargs))
                  (heapExtOff_heapExt env (ihA _ _ _ _ _ heq))
      | assign name value =>
        simp only [evalExpr] at heq
        split at heq
        · exact Option.noConfusion heq
        · rename_i v h1 hv
          split at heq
          · simp at heq
            obtain ⟨rfl, rfl⟩ := heq
            exact ihE _ _ _ _ _ hv
          · simp at heq
            obtain ⟨rfl, rfl⟩ := heq
            exact heapExt_trans (ihE _ _ _ _ _ hv) (envSet_heapExt _ _ _ _)
    · -- evalProgram
      intro sts env h acc r h2 heq
      cases sts with
      | nil =>
        simp only [evalProgram] at heq
        simp at heq
        obtain ⟨rfl, rfl⟩ := heq
        exact heapExt_refl _ _
      | cons s rest =>
        simp only [evalProgram] at heq
        split at heq
        · exact Option.noConfusion heq
        · rename_i res h1 hs
          split at heq
          · simp at heq
            obtain ⟨rfl, rfl⟩ := heq
            exact ihS _ _ _ _ _ hs
          · simp at heq
            obtain ⟨rfl, rfl⟩ := heq
            exact ihS _ _ _ _ _ hs
          · exact heapExt_trans (ihS _ _ _ _ _ hs) (ihP _ _ _ _ _ _ heq)
    · -- evalBlockStmts
      intro sts env h acc r h2 heq
      cases sts with
      | nil =>
        simp only [evalBlockStmts] at heq
        simp at heq
        obtain ⟨rfl, rfl⟩ := heq
        exact heapExt_refl _ _
      | cons s rest =>
        simp only [evalBlockStmts] at heq
        split at heq
        · exact Option.noConfusion heq
        · rename_i res h1 hs
          split at heq
          · simp at heq
            obtain ⟨rfl, rfl⟩ := heq
            exact ihS _ _ _ _ _ hs
          · exact heapExt_trans (ihS _ _ _ _ _ hs) (ihB _ _ _ _ _ _ heq)
    · -- evalExprList
      intro es env h acc r h2 heq
      cases es with
      | nil =>
        simp only [evalExprList] at heq
        simp at heq
        obtain ⟨rfl, rfl⟩ := heq
        exact heapExt_refl _ _
      | cons e rest =>
        simp only [evalExprList] at heq
        split at heq
        · exact Option.noConfusion heq
        · rename_i v h1 hv
          split at heq
          · simp at heq
            obtain ⟨rfl, rfl⟩ := heq
            exact ihE _ _ _ _ _ hv
          · exact heapExt_trans (ihE _ _ _ _ _ hv) (ihL _ _ _ _ _ _ heq)
    · -- evalLoopIter
      intro c u b env h acc r h2 heq
      cases c with
      | some ce =>
        simp only [evalLoopIter] at heq
        split at heq
        · exact Option.noConfusion heq
        · rename_i cv h1 hc
          split at heq
          · simp at heq
            obtain ⟨rfl, rfl⟩ := heq
            exact ihE _ _ _ _ _ hc
          · split at heq
            · simp at heq
              obtain ⟨rfl, rfl⟩ := heq
              exact ihE _ _ _ _ _ hc
            · exact heapExt_trans (ihE _ _ _ _ _ hc) (ihLB _ _ _ _ _ _ _ heq)
      | none =>
        simp only [evalLoopIter] at heq
        exact ihLB _ _ _ _ _ _ _ heq
    · -- evalLoopBody
      intro c u b env h r h2 heq
      cases u with
      | some us =>
        simp only [evalLoopBody] at heq
        split at heq
        · exact Option.noConfusion heq
        · rename_i res h1 hb
          split at heq
          · simp at heq
            obtain ⟨rfl, rfl⟩ := heq
            exact ihB _ _ _ _ _ _ hb
          · simp at heq
            obtain ⟨rfl, rfl⟩ := heq
            exact ihB _ _ _ _ _ _ hb
          · simp at heq
            obtain ⟨rfl, rfl⟩ := heq
            exact ihB _ _ _ _ _ _ hb
          · split at heq
            · exact Option.noConfusion heq
            · rename_i uv h3 hu
              split at heq
              · simp at heq
                obtain ⟨rfl, rfl⟩ := heq
                exact heapExt_trans (ihB _ _ _ _ _ _ hb) (ihS _ _ _ _ _ hu)
              · exact heapExt_trans (ihB _ _ _ _ _ _ hb)
                  (heapExt_trans (ihS _ _ _ _ _ hu)
                    (ihLI _ _ _ _ _ _ _ _ heq))
      | none =>
        simp only [evalLoopBody] at heq
        split at heq
        · exact Option.noConfusion heq
        · rename_i res h1 hb
          split at heq
          · simp at heq
            obtain ⟨rfl, rfl⟩ := heq
            exact ihB _ _ _ _ _ _ hb
          · simp at heq
            obtain ⟨rfl, rfl⟩ := heq
            exact ihB _ _ _ _ _ _ hb
          · simp at heq
            obtain ⟨rfl, rfl⟩ := heq
            exact ihB _ _ _ _ _ _ hb
          · exact heapExt_trans (ihB _ _ _ _ _ _ hb) (ihLI _ _ _ _ _ _ _ _ heq)
    · -- evalWhileIter
      intro c b env h acc r h2 heq
      simp only [evalWhileIter] at heq
      split at heq
      · exact Option.noConfusion heq
      · rename_i cv h1 hc
        split at heq
        · simp at heq
          obtain ⟨rfl, rfl⟩ := heq
          exact ihE _ _ _ _ _ hc
        · split at heq
          · simp at heq
            obtain ⟨rfl, rfl⟩ := heq
            exact ihE _ _ _ _ _ hc
          · split at heq
            · exact Option.noConfusion heq
            · rename_i res h3 hb
              split at heq
              · simp at heq
                obtain ⟨rfl, rfl⟩ := heq
                exact heapExt_trans (ihE _ _ _ _ _ hc) (ihB _ _ _ _ _ _ hb)
              · simp at heq
                obtain ⟨rfl, rfl⟩ := heq
                exact heapExt_trans (ihE _ _ _ _ _ hc) (ihB _ _ _ _ _ _ hb)
              · simp at heq
                obtain ⟨rfl, rfl⟩ := heq
                exact heapExt_trans (ihE _ _ _ _ _ hc) (ihB _ _ _ _ _ _ hb)
              · exact heapExt_trans (ihE _ _ _ _ _ hc)
                  (heapExt_trans (ihB _ _ _ _ _ _ hb)
                    (ihW _ _ _ _ _ _ _ heq))
    · -- applyFunction
      intro fn args h r h2 heq
      cases fn with
      | func params body envRef =>
        simp only [applyFunction, extendFunctionEnv,
          NewEnclosedEnvironment] at heq
        split at heq
        · exact Option.noConfusion heq
        · rename_i res h3 hb
          simp at heq
          obtain ⟨rfl, rfl⟩ := heq
          have hbindOff : HeapExtOff h
              (bindParams (h ++ [{ store := [], outer := some envRef }])
                h.length params args) := by
            refine ⟨?_, ?_⟩
            · rw [bindParams_length]
              simp
            · intro s hs
              rw [bindParams_getElem?_ne params args _ h.length s (by omega),
                List.getElem?_append, if_pos hs]
          exact heapExtOff_heapExt_trans hbindOff (ihB _ _ _ _ _ _ hb) le_rfl
      | builtin name =>
        simp only [applyFunction] at heq
        cases hv : builtinApply name args with
        | none =>
          rw [hv] at heq
          exact Option.noConfusion heq
        | some v =>
          rw [hv] at heq
          simp at heq
          obtain ⟨rfl, rfl⟩ := heq
          exact heapExtOff_refl _
      | number v =>
        simp only [applyFunction] at heq
        simp at heq
        obtain ⟨rfl, rfl⟩ := heq
        exact heapExtOff_refl _
      | strVal v =>
        simp only [applyFunction] at heq
        simp at heq
        obtain ⟨rfl, rfl⟩ := heq
        exact heapExtOff_refl _
      | boolean v =>
        simp only [applyFunction] at heq
        simp at heq
        obtain ⟨rfl, rfl⟩ := heq
        exact heapExtOff_refl _
      | null =>
        simp only [applyFunction] at heq
        simp at heq
        obtain ⟨rfl, rfl⟩ := heq
        exact heapExtOff_refl _
      | returnValue v =>
        simp only [applyFunction] at heq
        simp at heq
        obtain ⟨rfl, rfl⟩ := heq
        exact heapExtOff_refl _
      | error m =>
        simp only [applyFunction] at heq
        simp at heq
        obtain ⟨rfl, rfl⟩ := heq
        exact heapExtOff_refl _
      | array elems =>
        simp only [applyFunction] at heq
        simp at heq
        obtain ⟨rfl, rfl⟩ := heq
        exact heapExtOff_refl _
      | brk =>
        simp only [applyFunction] at heq
        simp at heq
        obtain ⟨rfl, rfl⟩ := heq
        exact heapExtOff_refl _
      | cont =>
        simp only [applyFunction] at heq
        simp at heq
        obtain ⟨rfl, rfl⟩ := heq
        exact heapExtOff_refl _
      | goNil =>
        simp only [applyFunction] at heq
        simp at heq
        obtain ⟨rfl, rfl⟩ := heq
        exact heapExtOff_refl _

/-- The frame facts of an evaluation that ran inside a freshly appended
loop scope, re-expressed against the original heap. -/
theorem loopExt_conclusions (h : Heap) (env : Nat) (h2 : Heap)
    (hx : HeapExt (h ++ [{ store := [], outer := some env }]) h2 h.length) :
    h.length < h2.length ∧ (∀ s, s < h.length → h2[s]? = h[s]?) ∧
    ((h2[h.length]?).map Scope.outer = some (some env)) := by
  obtain ⟨hl, he, ho⟩ := hx
  simp only [List.length_append, List.length_cons, List.length_nil] at hl
  refine ⟨by omega, ?_, ?_⟩
  · intro s hs
    rw [he s (by simp; omega) (by omega), List.getElem?_append, if_pos hs]
  · rw [ho h.length (by simp), append_fresh_getElem?]
    rfl

/-- C6: a `loop` statement creates a new inner environment enclosing the
current one and evaluates its init, condition, body and update there, so
every pre-existing scope - including the caller's own scope - keeps
exactly its bindings: names declared by the init or the body are not
bound in the surrounding environment afterward.  A `while_racing`
statement creates no inner environment: its condition and body run
directly in the caller's environment, so a `grid` declaration in its body
writes into the caller's scope, whose binding remains afterward, and the
heap gains no scope. -/
theorem loop_creates_scope_while_does_not :
    (∀ fuel init cond upd body env h r h2,
      evalStmt fuel (.loop init cond upd body) env h = some (r, h2) →
      h.length < h2.length ∧
      (∀ s, s < h.length → h2[s]? = h[s]?) ∧
      ((h2[h.length]?).map Scope.outer = some (some env))) ∧
    (∀ (fuel env : Nat) (h : Heap) (n : String) (q : ℚ),
      evalStmt (fuel+5) (.whileRacing (.booleanLit true)
        [.grid n (.numberLit q), .breakFlag]) env h =
        some (.null, EnvSet h env n (.number q)) ∧
      (EnvSet h env n (.number q)).length = h.length) ∧
    runSource 200
      "grid i = 9\nloop (grid i = 0; i < 1; i = i + 1){grid j = 1}\ni" =
      some (.number 9) ∧
    runSource 200 "loop (grid i = 0; i < 1; i = i + 1){grid j = 5}\nj" =
      some (.error "identifier not found: j") ∧
    runSource 200 "grid i = 0\nwhile_racing (i < 10){grid i = 99}\ni" =
      some (.number 99) := by
  refine ⟨?_, ?_, rfl, rfl, rfl⟩
  · intro fuel init cond upd body env h r h2 heq
    cases fuel with
    | zero => exact Option.noConfusion heq
    | succ fuel =>
      obtain ⟨ihS, ihE, ihP, ihB, ihL, ihLI, ihLB, ihW, ihA⟩ := evalFrame fuel
      cases init with
      | some st0 =>
        simp only [evalStmt, NewEnclosedEnvironment] at heq
        split at heq
        · exact Option.noConfusion heq
        · rename_i r0 h3 hi
          have hx1 : HeapExt (h ++ [{ store := [], outer := some env }]) h3
              h.length := ihS _ _ _ _ _ hi
          split at heq
          · simp at heq
            obtain ⟨rfl, rfl⟩ := heq
            exact loopExt_conclusions h env _ hx1
          · exact loopExt_conclusions h env h2
              (heapExt_trans hx1 (ihLI _ _ _ _ _ _ _ _ heq))
      | none =>
        simp only [evalStmt, NewEnclosedEnvironment] at heq
        exact loopExt_conclusions h env h2 (ihLI _ _ _ _ _ _ _ _ heq)
  · intro fuel env h n q
    exact ⟨rfl, envSet_length h env n (.number q)⟩

theorem loop_creates_scope_while_does_not_witness :
    (initialHeap.length <
      (initialHeap ++ [({ store := [("k", Obj.number 1)], outer := some 0 }
        : Scope)]).length ∧
     (∀ s, s < initialHeap.length →
      (initialHeap ++ [({ store := [("k", Obj.number 1)], outer := some 0 }
        : Scope)])[s]? = initialHeap[s]?) ∧
     (((initialHeap ++ [({ store := [("k", Obj.number 1)], outer := some 0 }
        : Scope)])[initialHeap.length]?).map Scope.outer =
        some (some 0))) ∧
    evalStmt 20 (.whileRacing (.booleanLit true)
      [.grid "j" (.numberLit 5), .breakFlag]) 0 initialHeap =
      some (.null, EnvSet initialHeap 0 "j" (.number 5)) := by
  refine ⟨loop_creates_scope_while_does_not.1 20
      (some (.grid "k" (.numberLit 1))) (some (.booleanLit false)) none
      [.breakFlag] 0 initialHeap .null
      (initialHeap ++ [{ store := [("k", Obj.number 1)], outer := some 0 }])
      ?_,
    (loop_creates_scope_while_does_not.2.1 15 0 initialHeap "j" 5).1⟩
  rfl

end Alonso
